import Mathlib

/-!
Verification development for the frame-safe transform library: a shallow
embedding of the coordinate-system / group / Lie-engine / transform code
(coordinate_system.rs, group.rs, lie.rs, transform.rs, static_transform.rs,
posture.rs) over exact real arithmetic.  Fatal run-time assertions are
modelled as Option-valued failure (none = the call aborts).  The numeric
backend (nalgebra) is embedded by its real-number semantics: quaternions are
Mathlib quaternions over ℝ, 3-vectors are triples of reals, and the
axis/angle conversions follow nalgebra's formulas exactly.
-/

noncomputable section

namespace ST

open Quaternion Real

/-- Real 3-vector, the embedding of nalgebra Vector3 over exact reals. -/
@[ext]
structure Vec3 where
  x : ℝ
  y : ℝ
  z : ℝ

instance : Add Vec3 := ⟨fun a b => ⟨a.x + b.x, a.y + b.y, a.z + b.z⟩⟩

instance : Neg Vec3 := ⟨fun a => ⟨-a.x, -a.y, -a.z⟩⟩

instance : Sub Vec3 := ⟨fun a b => ⟨a.x - b.x, a.y - b.y, a.z - b.z⟩⟩

instance : Zero Vec3 := ⟨⟨0, 0, 0⟩⟩

instance : SMul ℝ Vec3 := ⟨fun c a => ⟨c * a.x, c * a.y, c * a.z⟩⟩

/-- Componentwise division of a vector by a scalar (nalgebra Vector3 / scalar). -/
instance : HDiv Vec3 ℝ Vec3 := ⟨fun a c => ⟨a.x / c, a.y / c, a.z / c⟩⟩

/-- Dot product of 3-vectors. -/
def Vec3.dot (a b : Vec3) : ℝ := a.x * b.x + a.y * b.y + a.z * b.z

/-- Cross product of 3-vectors. -/
def Vec3.cross (a b : Vec3) : Vec3 :=
  ⟨a.y * b.z - a.z * b.y, a.z * b.x - a.x * b.z, a.x * b.y - a.y * b.x⟩

/-- Euclidean norm of a 3-vector. -/
def Vec3.norm (v : Vec3) : ℝ := Real.sqrt (v.dot v)

/-- Real 2-vector (image-plane coordinates), the embedding of nalgebra Vector2. -/
@[ext]
structure Vec2 where
  x : ℝ
  y : ℝ

/-- Row-major 3×3 matrix, the embedding of nalgebra Matrix3. -/
structure Mat3 where
  row0 : Vec3
  row1 : Vec3
  row2 : Vec3

/-- Matrix-vector product. -/
def Mat3.mulVec (m : Mat3) (v : Vec3) : Vec3 := ⟨m.row0.dot v, m.row1.dot v, m.row2.dot v⟩

/-- Imaginary (vector) part of a quaternion as a 3-vector. -/
def qvec (q : Quaternion ℝ) : Vec3 := ⟨q.imI, q.imJ, q.imK⟩

/-- A 3-vector as a pure quaternion. -/
def pureQ (v : Vec3) : Quaternion ℝ := ⟨0, v.x, v.y, v.z⟩

/-- Rotation of a vector by a (unit) quaternion, as nalgebra computes it:
t = 2 (u × v); result = w t + u × t + v, with u the vector part and w the
scalar part.  For unit quaternions this agrees with the conjugation sandwich. -/
def rotv (q : Quaternion ℝ) (v : Vec3) : Vec3 :=
  let t : Vec3 := (2 : ℝ) • ((qvec q).cross v)
  q.re • t + (qvec q).cross t + v

/-- Conjugation sandwich q v q*, the mathematical rotation action. -/
def sandwich (q : Quaternion ℝ) (v : Vec3) : Vec3 := qvec (q * pureQ v * star q)

/-- Rigid isometry: rotation quaternion plus translation vector, the embedding
of nalgebra Isometry3 (rotation stored as a unit quaternion). -/
@[ext]
structure Iso where
  rot : Quaternion ℝ
  trans : Vec3

/-- Isometry composition, as nalgebra defines it: rotations compose, the
translation is a.rotation · b.translation + a.translation. -/
def Iso.mul (a b : Iso) : Iso := ⟨a.rot * b.rot, rotv a.rot b.trans + a.trans⟩

/-- Isometry inverse, as nalgebra defines it: rotation becomes the conjugate,
translation becomes the inverse rotation applied to the negated translation. -/
def Iso.inverse (a : Iso) : Iso := ⟨star a.rot, rotv (star a.rot) (-a.trans)⟩

/-- The identity isometry. -/
def Iso.one : Iso := ⟨1, 0⟩

/-- Twist: tangent-space representation of a rigid-pose displacement
(angular part w, linear part v), from lie.rs. -/
@[ext]
structure Twist where
  w : Vec3
  v : Vec3

/-- Scaling a twist componentwise. -/
def Twist.smul (c : ℝ) (t : Twist) : Twist := ⟨c • t.w, c • t.v⟩

/-- Angle of a unit quaternion, as nalgebra computes it: 2 · arccos |re|. -/
def vangle (q : Quaternion ℝ) : ℝ := 2 * Real.arccos |q.re|

/-- Scaled axis (axis times angle) of a unit quaternion, as nalgebra computes
it: the vector part (negated when the scalar part is negative), normalized and
multiplied by the angle; the zero vector when the vector part vanishes. -/
def scaled_axis (q : Quaternion ℝ) : Vec3 :=
  let v : Vec3 := if 0 ≤ q.re then qvec q else -(qvec q)
  if v.norm = 0 then 0 else (vangle q / v.norm) • v

/-- Unit quaternion with the given scaled axis (the quaternion exponential),
as nalgebra computes it: identity for the zero vector, otherwise
(cos(θ/2), sin(θ/2) · w/θ) with θ the norm of w. -/
def from_scaled_axis (w : Vec3) : Quaternion ℝ :=
  if w.norm = 0 then 1 else
    ⟨Real.cos (w.norm / 2), (Real.sin (w.norm / 2) / w.norm) * w.x,
      (Real.sin (w.norm / 2) / w.norm) * w.y, (Real.sin (w.norm / 2) / w.norm) * w.z⟩

/-! ## Coordinate systems of the coordinate_system.rs / group.rs / lie.rs hierarchy -/

/-- Coordinate frame: a frame tag value and a runtime timestamp
(coordinate_system.rs CoordinateFrame). -/
@[ext]
structure CoordinateFrame (F : Type) where
  time : Nat
  robot_frame : F
deriving DecidableEq

/-- Builds a coordinate frame at the given time with the tag's default value. -/
def CoordinateFrame.at_time (F : Type) [Inhabited F] (time : Nat) : CoordinateFrame F :=
  ⟨time, default⟩

/-- Coordinate system: a coordinate frame plus a manifold tag value.  The
representation type is a phantom parameter exactly as in the source; equality
compares the frame and the manifold tag only (coordinate_system.rs PartialEq). -/
@[ext]
structure CoordinateSystem (F M : Type) (Repr : Type) where
  frame : CoordinateFrame F
  manifold : M

instance {F M Repr : Type} [DecidableEq F] [DecidableEq M] :
    DecidableEq (CoordinateSystem F M Repr) := fun a b =>
  decidable_of_iff (a.frame = b.frame ∧ a.manifold = b.manifold) (by
    constructor
    · rintro ⟨h1, h2⟩; cases a; cases b; cases h1; cases h2; rfl
    · intro h; cases h; exact ⟨rfl, rfl⟩)

/-- Builds a coordinate system from an explicit frame, with the manifold tag's
default value. -/
def CoordinateSystem.at_frame (M Repr : Type) [Inhabited M] {F : Type}
    (id : CoordinateFrame F) : CoordinateSystem F M Repr :=
  ⟨id, default⟩

/-- Builds a coordinate system at the given time (default frame tag and
manifold tag values). -/
def CoordinateSystem.at_time (F M Repr : Type) [Inhabited F] [Inhabited M]
    (time : Nat) : CoordinateSystem F M Repr :=
  CoordinateSystem.at_frame M Repr (CoordinateFrame.at_time F time)

/-- A manifold element (point): a coordinate system and concrete coordinates. -/
structure ManifoldElement (F M Repr : Type) where
  coordinate_system : CoordinateSystem F M Repr
  coordinates : Repr

/-- Manifold tags from manifold.rs: each is a zero-sized marker type. -/
structure SO3 where
deriving DecidableEq, Inhabited

structure SE3 where
deriving DecidableEq, Inhabited

structure R3 where
deriving DecidableEq, Inhabited

structure so3 where
deriving DecidableEq, Inhabited

structure se3 where
deriving DecidableEq, Inhabited

/-! ## Group algebra (group.rs), with the fatal frame assertion as Option -/

/-- Rotation-group multiplication: asserts equal coordinate systems, then
multiplies the quaternions (group.rs, SO3 impl). -/
def SO3.group_mul {F : Type} [DecidableEq F] (a b : ManifoldElement F SO3 (Quaternion ℝ)) :
    Option (ManifoldElement F SO3 (Quaternion ℝ)) :=
  if a.coordinate_system = b.coordinate_system then
    some ⟨a.coordinate_system, a.coordinates * b.coordinates⟩
  else none

/-- Rotation-group identity at a coordinate system. -/
def SO3.identity_at {F : Type} (cs : CoordinateSystem F SO3 (Quaternion ℝ)) :
    ManifoldElement F SO3 (Quaternion ℝ) :=
  ⟨cs, 1⟩

/-- Rotation-group inverse: quaternion conjugate (nalgebra UnitQuaternion
inverse). -/
def SO3.invert {F : Type} (a : ManifoldElement F SO3 (Quaternion ℝ)) :
    ManifoldElement F SO3 (Quaternion ℝ) :=
  ⟨a.coordinate_system, star a.coordinates⟩

/-- Rigid-pose-group multiplication: asserts equal coordinate systems, then
composes the isometries (group.rs, SE3 impl). -/
def SE3.group_mul {F : Type} [DecidableEq F] (a b : ManifoldElement F SE3 Iso) :
    Option (ManifoldElement F SE3 Iso) :=
  if a.coordinate_system = b.coordinate_system then
    some ⟨a.coordinate_system, a.coordinates.mul b.coordinates⟩
  else none

/-- Rigid-pose-group identity at a coordinate system. -/
def SE3.identity_at {F : Type} (cs : CoordinateSystem F SE3 Iso) :
    ManifoldElement F SE3 Iso :=
  ⟨cs, Iso.one⟩

/-- Rigid-pose-group inverse: isometry inverse. -/
def SE3.invert {F : Type} (a : ManifoldElement F SE3 Iso) : ManifoldElement F SE3 Iso :=
  ⟨a.coordinate_system, a.coordinates.inverse⟩

/-- Translation-group multiplication: asserts equal coordinate systems, then
adds the translation vectors (group.rs, R3 impl; nalgebra Translation3
product is vector addition). -/
def R3.group_mul {F : Type} [DecidableEq F] (a b : ManifoldElement F R3 Vec3) :
    Option (ManifoldElement F R3 Vec3) :=
  if a.coordinate_system = b.coordinate_system then
    some ⟨a.coordinate_system, a.coordinates + b.coordinates⟩
  else none

/-- Translation-group identity at a coordinate system. -/
def R3.identity_at {F : Type} (cs : CoordinateSystem F R3 Vec3) : ManifoldElement F R3 Vec3 :=
  ⟨cs, 0⟩

/-- Translation-group inverse: vector negation. -/
def R3.invert {F : Type} (a : ManifoldElement F R3 Vec3) : ManifoldElement F R3 Vec3 :=
  ⟨a.coordinate_system, -a.coordinates⟩

/-- Modelled from the spec: the generic Transform struct of the group
hierarchy, Transform = {dst, src, transform representation}; the struct's own
definition is not under src, only its trait impls in group.rs are. -/
structure GTransform (F M Repr : Type) where
  dst : CoordinateSystem F M Repr
  src : CoordinateSystem F M Repr
  transform : Repr

/-- Applying a group-hierarchy Transform to a manifold element (group.rs
IsTransform impl, SE3 instantiation): asserts the source coordinate system
matches the point, re-anchors both the stored representation and the point's
coordinates at dst, and group-multiplies. -/
def GTransform.transform_point {F : Type} [DecidableEq F] (T : GTransform F SE3 Iso)
    (point : ManifoldElement F SE3 Iso) : Option (ManifoldElement F SE3 Iso) :=
  if T.src = point.coordinate_system then
    SE3.group_mul ⟨T.dst, T.transform⟩ ⟨T.dst, point.coordinates⟩
  else none

/-! ## Lie exponential / logarithm engine (lie.rs) -/

/-- A Lie-algebra point: a group-valued anchor element, an algebra-tagged
coordinate system and tangent coordinates (lie.rs LieAlgebraPoint). -/
structure LieAlgebraPoint (F GroupM AlgM Repr GroupRepr : Type) where
  tangent_at : ManifoldElement F GroupM GroupRepr
  coordinate_system : CoordinateSystem F AlgM Repr
  coordinates : Repr

/-- Constructor of a Lie-algebra point: asserts that the algebra coordinate
system shares its frame with the anchor's coordinate system (lie.rs new). -/
def LieAlgebraPoint.new {F GroupM AlgM Repr GroupRepr : Type} [DecidableEq F]
    (tangent_at : ManifoldElement F GroupM GroupRepr)
    (coordinate_system : CoordinateSystem F AlgM Repr) (coordinates : Repr) :
    Option (LieAlgebraPoint F GroupM AlgM Repr GroupRepr) :=
  if coordinate_system.frame = tangent_at.coordinate_system.frame then
    some ⟨tangent_at, coordinate_system, coordinates⟩
  else none

/-- The angular threshold of the rigid-pose logarithm (the literal 1e-6 at its
singularity guard in lie.rs log_of). -/
def se3LogEps : ℝ := 1e-6

/-- The angular threshold of the rigid-pose exponential (the literal 1e-6 at
its singularity guard in lie.rs From). -/
def se3ExpEps : ℝ := 1e-6

/-- Rotation-group logarithm (lie.rs, SO3 log_of): asserts equal coordinate
systems, then takes the scaled axis of the relative rotation, anchored at
self. -/
def SO3.log_of {F : Type} [DecidableEq F] [Inhabited F]
    (self other : ManifoldElement F SO3 (Quaternion ℝ)) :
    Option (LieAlgebraPoint F SO3 so3 Vec3 (Quaternion ℝ)) :=
  if self.coordinate_system = other.coordinate_system then
    (SO3.group_mul (SO3.invert self) other).bind fun rel =>
      LieAlgebraPoint.new self
        (CoordinateSystem.at_time F so3 Vec3 self.coordinate_system.frame.time)
        (scaled_axis rel.coordinates)
  else none

/-- Scaling a rotation-algebra point (lie.rs, so3 scale_by). -/
def so3.scale_by {F : Type} [DecidableEq F]
    (p : LieAlgebraPoint F SO3 so3 Vec3 (Quaternion ℝ)) (scalar : ℝ) :
    Option (LieAlgebraPoint F SO3 so3 Vec3 (Quaternion ℝ)) :=
  LieAlgebraPoint.new p.tangent_at p.coordinate_system (scalar • p.coordinates)

/-- Conversion of a rotation-algebra point back to a group element (lie.rs,
From impl for SO3): exponentiates the coordinates and composes onto the
anchor via the group law. -/
def SO3.from_algebra {F : Type} [DecidableEq F]
    (algebra_point : LieAlgebraPoint F SO3 so3 Vec3 (Quaternion ℝ)) :
    Option (ManifoldElement F SO3 (Quaternion ℝ)) :=
  let base := algebra_point.tangent_at
  SO3.group_mul base ⟨base.coordinate_system, from_scaled_axis algebra_point.coordinates⟩

/-- Geodesic interpolation on the rotation group (lie.rs, lerp_to default):
logarithm, scaling by alpha, re-exponentiation. -/
def SO3.lerp_to {F : Type} [DecidableEq F] [Inhabited F]
    (self other : ManifoldElement F SO3 (Quaternion ℝ)) (alpha : ℝ) :
    Option (ManifoldElement F SO3 (Quaternion ℝ)) :=
  (SO3.log_of self other).bind fun t =>
    (so3.scale_by t alpha).bind fun t2 => SO3.from_algebra t2

/-- Rigid-pose-group logarithm (lie.rs, SE3 log_of): asserts equal coordinate
systems, computes the relative isometry self⁻¹ · other, and expresses it as a
twist via the closed-form screw logarithm with a 1e-6 singularity guard. -/
def SE3.log_of {F : Type} [DecidableEq F] [Inhabited F]
    (self other : ManifoldElement F SE3 Iso) :
    Option (LieAlgebraPoint F SE3 se3 Twist Iso) :=
  if self.coordinate_system = other.coordinate_system then
    (SE3.group_mul (SE3.invert self) other).bind fun relel =>
      let isometry := relel.coordinates
      let w := scaled_axis isometry.rot
      let theta := vangle isometry.rot
      let v :=
        if theta < se3LogEps then isometry.trans
        else
          let t := isometry.trans
          let w_normed := w / theta
          let t_proj_w := (t.dot w_normed) • w_normed
          let t_perp_w := t - t_proj_w
          let t_prime_plus_t_perp_w_over_2 :=
            (t_perp_w.cross w_normed) / (2 : ℝ) / Real.tan (theta / 2)
          let t_prime := t_prime_plus_t_perp_w_over_2 - t_perp_w / (2 : ℝ)
          w.cross t_prime + t_proj_w
      LieAlgebraPoint.new self
        (CoordinateSystem.at_time F se3 Twist self.coordinate_system.frame.time)
        ⟨w, v⟩
  else none

/-- Scaling a rigid-pose-algebra point (lie.rs, se3 scale_by). -/
def se3.scale_by {F : Type} [DecidableEq F]
    (p : LieAlgebraPoint F SE3 se3 Twist Iso) (scalar : ℝ) :
    Option (LieAlgebraPoint F SE3 se3 Twist Iso) :=
  LieAlgebraPoint.new p.tangent_at p.coordinate_system
    ⟨scalar • p.coordinates.w, scalar • p.coordinates.v⟩

/-- Conversion of a rigid-pose-algebra point back to a group element (lie.rs,
From impl for SE3): closed-form screw exponential with a 1e-6 singularity
guard, composed onto the anchor via the group law. -/
def SE3.from_algebra {F : Type} [DecidableEq F]
    (algebra_point : LieAlgebraPoint F SE3 se3 Twist Iso) :
    Option (ManifoldElement F SE3 Iso) :=
  let base := algebra_point.tangent_at
  let w := algebra_point.coordinates.w
  let rotation := from_scaled_axis w
  let theta := w.norm
  let t :=
    if theta < se3ExpEps then algebra_point.coordinates.v
    else
      let v := algebra_point.coordinates.v
      let w_normed := w / theta
      let v_proj_w := (v.dot w_normed) • w_normed
      let v_perp_w := v - v_proj_w
      let t_prime := (v_perp_w.cross w_normed) / theta
      (rotv rotation t_prime - t_prime) + v_proj_w
  SE3.group_mul base ⟨base.coordinate_system, ⟨rotation, t⟩⟩

/-- Geodesic interpolation on the rigid-pose group (lie.rs, lerp_to default). -/
def SE3.lerp_to {F : Type} [DecidableEq F] [Inhabited F]
    (self other : ManifoldElement F SE3 Iso) (alpha : ℝ) :
    Option (ManifoldElement F SE3 Iso) :=
  (SE3.log_of self other).bind fun t =>
    (se3.scale_by t alpha).bind fun t2 => SE3.from_algebra t2

/-! ## The transform.rs / static_transform.rs hierarchy -/

/-- Modelled from the spec: the coordinate system of the transform.rs
hierarchy, keyed by a compile-time coordinate-system-id type plus a runtime
timestamp (its definition is not under src; the spec's Frame Identity is a
compile-time frame tag plus a runtime timestamp, equal iff both equal). -/
structure IdCoordinateSystem (Id : Type) (Repr : Type) where
  time : Nat

instance {Id Repr : Type} : DecidableEq (IdCoordinateSystem Id Repr) := fun a b =>
  decidable_of_iff (a.time = b.time) (by
    constructor
    · intro h; cases a; cases b; cases h; rfl
    · intro h; cases h; rfl)

/-- Builds an id-keyed coordinate system at the given time. -/
def IdCoordinateSystem.at_time (Id Repr : Type) (time : Nat) : IdCoordinateSystem Id Repr :=
  ⟨time⟩

/-- Modelled from the spec: the Point of the transform.rs hierarchy, a value
anchored to an id-keyed coordinate system (its definition is not under src). -/
structure Point (Id : Type) (Repr : Type) where
  coordinate_system : IdCoordinateSystem Id Repr
  coordinates : Repr

/-- Point constructor (spec: constructs from a coordinate system and
coordinates; accessors retrieve each field unchanged). -/
def Point.new {Id Repr : Type} (coordinate_system : IdCoordinateSystem Id Repr)
    (coordinates : Repr) : Point Id Repr :=
  ⟨coordinate_system, coordinates⟩

/-- A Transform between two SE3 coordinate systems (transform.rs
SE3Transform). -/
structure SE3Transform (DstId SrcId : Type) where
  dst : IdCoordinateSystem DstId Iso
  src : IdCoordinateSystem SrcId Iso
  transform : Iso

/-- The unchecked application: anchors the isometry product at dst
(transform.rs SE3Transform transform_inner, no coordinate-system check). -/
def SE3Transform.transform_inner {DstId SrcId : Type} (T : SE3Transform DstId SrcId)
    (point : Point SrcId Iso) : Point DstId Iso :=
  Point.new T.dst (T.transform.mul point.coordinates)

/-- The checked application (transform.rs IsTransform::transform default):
asserts that the transform's source coordinate system equals the point's
coordinate system, then calls transform_inner. -/
def SE3Transform.transform_point {DstId SrcId : Type} (T : SE3Transform DstId SrcId)
    (point : Point SrcId Iso) : Option (Point DstId Iso) :=
  if T.src = point.coordinate_system then some (T.transform_inner point) else none

/-- Inverting an SE3 Transform (transform.rs invert): swaps dst and src and
stores the isometry inverse. -/
def SE3Transform.invert {DstId SrcId : Type} (T : SE3Transform DstId SrcId) :
    SE3Transform SrcId DstId :=
  ⟨T.src, T.dst, T.transform.inverse⟩

/-- Composing two SE3 Transforms (transform.rs compose_with): asserts the
shared endpoint matches, then multiplies the isometries. -/
def SE3Transform.compose_with {DstId SrcId RhsSrcId : Type} (T : SE3Transform DstId SrcId)
    (rhs : SE3Transform SrcId RhsSrcId) : Option (SE3Transform DstId RhsSrcId) :=
  if T.src = rhs.dst then some ⟨T.dst, rhs.src, T.transform.mul rhs.transform⟩ else none

/-- A Transform from an SE3 coordinate system to an image-plane coordinate
system via a fixed projective matrix (transform.rs ProjectiveTransform). -/
structure ProjectiveTransform (DstId SrcId : Type) where
  dst : IdCoordinateSystem DstId Vec2
  src : IdCoordinateSystem SrcId Iso
  k : Mat3

/-- The unchecked projective application (transform.rs ProjectiveTransform
transform_inner): multiplies the intrinsics matrix by the point's translation
and divides by the projected depth; no coordinate-system check and no failure
path. -/
def ProjectiveTransform.transform_inner {DstId SrcId : Type}
    (T : ProjectiveTransform DstId SrcId) (point : Point SrcId Iso) : Point DstId Vec2 :=
  let unnormalized_coords := T.k.mulVec point.coordinates.trans
  Point.new T.dst
    ⟨unnormalized_coords.x / unnormalized_coords.z, unnormalized_coords.y / unnormalized_coords.z⟩

/-- The condition under which the projective application logs its non-fatal
diagnostic: the projected depth is ≤ 0 (transform.rs, the log warning). -/
def ProjectiveTransform.warns {DstId SrcId : Type} (T : ProjectiveTransform DstId SrcId)
    (point : Point SrcId Iso) : Prop :=
  (T.k.mulVec point.coordinates.trans).z ≤ 0

/-- The checked projective application (the same IsTransform::transform
default as for SE3Transform). -/
def ProjectiveTransform.transform_point {DstId SrcId : Type}
    (T : ProjectiveTransform DstId SrcId) (point : Point SrcId Iso) :
    Option (Point DstId Vec2) :=
  if T.src = point.coordinate_system then some (T.transform_inner point) else none

/-- A static (time-invariant) SE3 transform (static_transform.rs). -/
structure StaticSE3Transform (DstId SrcId : Type) where
  transform : Iso

/-- Lifts a static SE3 transform to a full Transform at a timestamp
(static_transform.rs at_time): builds both endpoint coordinate systems at
that time and carries the static representation. -/
def StaticSE3Transform.at_time {DstId SrcId : Type} (s : StaticSE3Transform DstId SrcId)
    (time : Nat) : SE3Transform DstId SrcId :=
  ⟨IdCoordinateSystem.at_time DstId Iso time, IdCoordinateSystem.at_time SrcId Iso time,
    s.transform⟩

/-- Inverting a static SE3 transform (static_transform.rs invert). -/
def StaticSE3Transform.invert {DstId SrcId : Type} (s : StaticSE3Transform DstId SrcId) :
    StaticSE3Transform SrcId DstId :=
  ⟨s.transform.inverse⟩

/-! ## Float model for the Posture wrapper (posture.rs)

The Posture invariant concerns only the special float values NaN and negative
zero, so f32 is modelled as: NaN, negative zero, or a finite value (with
positive zero as the finite value 0).  Structural equality of this type plays
the role of bit-pattern identity (to_bits), while feq is the IEEE == used by
the derived PartialEq. -/

inductive F32 where
  | nan : F32
  | negZero : F32
  | fin (v : ℚ) : F32
deriving DecidableEq

/-- Numeric value of a non-NaN float; negative zero has value 0. -/
def F32.toVal : F32 → ℚ
  | F32.nan => 0
  | F32.negZero => 0
  | F32.fin v => v

/-- IEEE equality (Rust f32 ==): false on NaN, value comparison otherwise, so
negative zero equals positive zero. -/
def F32.feq : F32 → F32 → Bool
  | F32.nan, _ => false
  | _, F32.nan => false
  | a, b => decide (a.toVal = b.toVal)

/-- Rust f32 partial_cmp: none iff an operand is NaN, otherwise the value
comparison. -/
def F32.partial_cmp : F32 → F32 → Option Ordering
  | F32.nan, _ => none
  | _, F32.nan => none
  | a, b => some (compare a.toVal b.toVal)

/-- The component validation of posture.rs: asserts the value is not NaN
(fatal otherwise) and rewrites negative zero to positive zero. -/
def F32.validate : F32 → Option F32
  | F32.nan => none
  | x => if x.feq F32.negZero then some (F32.fin 0) else some x

/-- A float free of the two forbidden special values. -/
def F32.ok (x : F32) : Prop := x ≠ F32.nan ∧ x ≠ F32.negZero

/-- The four stored float components of a Posture (translation x, translation
y, rotation re, rotation im). -/
structure Posture where
  tx : F32
  ty : F32
  re : F32
  im : F32
deriving DecidableEq

/-- The validate method of posture.rs: validates all four stored components
in order. -/
def Posture.validate (p : Posture) : Option Posture :=
  (p.tx.validate).bind fun tx =>
    (p.ty.validate).bind fun ty =>
      (p.re.validate).bind fun re =>
        (p.im.validate).bind fun im => some ⟨tx, ty, re, im⟩

/-- Every public Posture constructor and operation of posture.rs (new,
from_isometry, from_pt_rot, origin, translate, multiplication by an isometry)
computes raw float components and then calls validate on the full state; the
raw arithmetic results are represented here by arbitrary component values. -/
def Posture.construct (tx ty re im : F32) : Option Posture :=
  Posture.validate ⟨tx, ty, re, im⟩

/-- All four stored components are free of NaN and negative zero. -/
def Posture.ok (p : Posture) : Prop := p.tx.ok ∧ p.ty.ok ∧ p.re.ok ∧ p.im.ok

/-- The lazy then_with chaining of Rust Ordering inside an Option. -/
def thenWithOpt (o : Ordering) (f : Unit → Option Ordering) : Option Ordering :=
  match o with
  | Ordering.eq => f ()
  | o => some o

/-- The Ord implementation of posture.rs: component-wise partial_cmp (whose
unwrap is the potential panic, modelled as none) chained with then_with over
translation x, translation y, rotation re, rotation im. -/
def Posture.cmp (p q : Posture) : Option Ordering :=
  (p.tx.partial_cmp q.tx).bind fun o1 =>
    thenWithOpt o1 fun _ =>
      (p.ty.partial_cmp q.ty).bind fun o2 =>
        thenWithOpt o2 fun _ =>
          (p.re.partial_cmp q.re).bind fun o3 =>
            thenWithOpt o3 fun _ => p.im.partial_cmp q.im

/-- The derived PartialEq of posture.rs: component-wise IEEE equality. -/
def Posture.feq (p q : Posture) : Bool :=
  p.tx.feq q.tx && p.ty.feq q.ty && p.re.feq q.re && p.im.feq q.im

/-- The Hash implementation of posture.rs hashes the to_bits of each stored
component; bit patterns are modelled by the F32 values themselves. -/
def Posture.hash_bits (p : Posture) : F32 × F32 × F32 × F32 := (p.tx, p.ty, p.re, p.im)

/-- Angular residual between two rotation quaternions: the nalgebra angle of
the relative rotation, which is zero exactly when the two quaternions define
the same rotation (it ignores the quaternion double-cover sign). -/
def rot_residual (a b : Quaternion ℝ) : ℝ := vangle (star a * b)

/-- Concrete fixture: a rigid-pose element at the identity pose. -/
def wpSE3 : ManifoldElement Unit SE3 Iso :=
  ⟨CoordinateSystem.at_time Unit SE3 Iso 0, Iso.one⟩

/-- Concrete fixture: a rigid-pose element with a pure translation. -/
def wgSE3 : ManifoldElement Unit SE3 Iso :=
  ⟨CoordinateSystem.at_time Unit SE3 Iso 0, ⟨1, ⟨1, 0, 0⟩⟩⟩

/-- Concrete fixture: the identity rotation element. -/
def wpSO3 : ManifoldElement Unit SO3 (Quaternion ℝ) :=
  ⟨CoordinateSystem.at_time Unit SO3 (Quaternion ℝ) 0, 1⟩

/-- Concrete fixture: a quarter-turn-squared rotation element (the unit
quaternion i). -/
def wgSO3 : ManifoldElement Unit SO3 (Quaternion ℝ) :=
  ⟨CoordinateSystem.at_time Unit SO3 (Quaternion ℝ) 0, ⟨0, 1, 0, 0⟩⟩

/-! ## Component lemmas for the vector layer -/

@[simp] theorem Vec3.add_x (a b : Vec3) : (a + b).x = a.x + b.x := rfl

@[simp] theorem Vec3.add_y (a b : Vec3) : (a + b).y = a.y + b.y := rfl

@[simp] theorem Vec3.add_z (a b : Vec3) : (a + b).z = a.z + b.z := rfl

@[simp] theorem Vec3.neg_x (a : Vec3) : (-a).x = -a.x := rfl

@[simp] theorem Vec3.neg_y (a : Vec3) : (-a).y = -a.y := rfl

@[simp] theorem Vec3.neg_z (a : Vec3) : (-a).z = -a.z := rfl

@[simp] theorem Vec3.sub_x (a b : Vec3) : (a - b).x = a.x - b.x := rfl

@[simp] theorem Vec3.sub_y (a b : Vec3) : (a - b).y = a.y - b.y := rfl

@[simp] theorem Vec3.sub_z (a b : Vec3) : (a - b).z = a.z - b.z := rfl

@[simp] theorem Vec3.zero_x : (0 : Vec3).x = 0 := rfl

@[simp] theorem Vec3.zero_y : (0 : Vec3).y = 0 := rfl

@[simp] theorem Vec3.zero_z : (0 : Vec3).z = 0 := rfl

@[simp] theorem Vec3.smul_x (c : ℝ) (a : Vec3) : (c • a).x = c * a.x := rfl

@[simp] theorem Vec3.smul_y (c : ℝ) (a : Vec3) : (c • a).y = c * a.y := rfl

@[simp] theorem Vec3.smul_z (c : ℝ) (a : Vec3) : (c • a).z = c * a.z := rfl

@[simp] theorem Vec3.div_x (a : Vec3) (c : ℝ) : (a / c).x = a.x / c := rfl

@[simp] theorem Vec3.div_y (a : Vec3) (c : ℝ) : (a / c).y = a.y / c := rfl

@[simp] theorem Vec3.div_z (a : Vec3) (c : ℝ) : (a / c).z = a.z / c := rfl

@[simp] theorem Vec3.cross_x (a b : Vec3) : (a.cross b).x = a.y * b.z - a.z * b.y := rfl

@[simp] theorem Vec3.cross_y (a b : Vec3) : (a.cross b).y = a.z * b.x - a.x * b.z := rfl

@[simp] theorem Vec3.cross_z (a b : Vec3) : (a.cross b).z = a.x * b.y - a.y * b.x := rfl

/-! ## Claim theorems: transform-application checks and formulas -/

/-- Claim C1: for every Transform (SE3, projective, or the group-hierarchy SE3
instance) applied to a point whose frame-tag type matches statically, the
checked transform call fails (none) iff the point's coordinate system differs
from the transform's source; in particular a timestamp-only difference aborts
the call and no result is produced. -/
theorem claim_c1 :
    (∀ (DstId SrcId : Type) (T : SE3Transform DstId SrcId) (p : Point SrcId Iso),
      T.transform_point p = none ↔ ¬p.coordinate_system = T.src)
    ∧ (∀ (DstId SrcId : Type) (T : ProjectiveTransform DstId SrcId) (p : Point SrcId Iso),
      T.transform_point p = none ↔ ¬p.coordinate_system = T.src)
    ∧ (∀ (F : Type) (inst : DecidableEq F) (T : GTransform F SE3 Iso)
        (p : ManifoldElement F SE3 Iso),
      T.transform_point p = none ↔ ¬p.coordinate_system = T.src)
    ∧ (∀ (DstId SrcId : Type) (T : SE3Transform DstId SrcId) (p : Point SrcId Iso),
      p.coordinate_system.time ≠ T.src.time → T.transform_point p = none) := by
  refine ⟨?_, ?_, ?_, ?_⟩
  · intro DstId SrcId T p
    by_cases h : T.src = p.coordinate_system
    · simp only [SE3Transform.transform_point, if_pos h]
      exact iff_of_false (by simp) (not_not_intro h.symm)
    · simp only [SE3Transform.transform_point, if_neg h]
      exact iff_of_true trivial (fun hc => h hc.symm)
  · intro DstId SrcId T p
    by_cases h : T.src = p.coordinate_system
    · simp only [ProjectiveTransform.transform_point, if_pos h]
      exact iff_of_false (by simp) (not_not_intro h.symm)
    · simp only [ProjectiveTransform.transform_point, if_neg h]
      exact iff_of_true trivial (fun hc => h hc.symm)
  · intro F inst T p
    by_cases h : T.src = p.coordinate_system
    · simp only [GTransform.transform_point, if_pos h, SE3.group_mul, if_pos rfl]
      exact iff_of_false (by simp) (not_not_intro h.symm)
    · simp only [GTransform.transform_point, if_neg h]
      exact iff_of_true trivial (fun hc => h hc.symm)
  · intro DstId SrcId T p htime
    have h : ¬T.src = p.coordinate_system := by
      intro hc
      exact htime (by rw [hc])
    simp [SE3Transform.transform_point, if_neg h]

/-- Witness for C1: a concrete static-tag match with a timestamp-only
mismatch aborts the transform call. -/
theorem claim_c1_witness :
    ((Point.new (IdCoordinateSystem.at_time Unit Iso 1) Iso.one :
        Point Unit Iso).coordinate_system.time ≠
      ((⟨IdCoordinateSystem.at_time Unit Iso 0, IdCoordinateSystem.at_time Unit Iso 0,
        Iso.one⟩ : SE3Transform Unit Unit)).src.time)
    ∧ ((⟨IdCoordinateSystem.at_time Unit Iso 0, IdCoordinateSystem.at_time Unit Iso 0,
        Iso.one⟩ : SE3Transform Unit Unit)).transform_point
        (Point.new (IdCoordinateSystem.at_time Unit Iso 1) Iso.one) = none :=
  ⟨by decide,
    claim_c1.2.2.2 Unit Unit
      ⟨IdCoordinateSystem.at_time Unit Iso 0, IdCoordinateSystem.at_time Unit Iso 0, Iso.one⟩
      (Point.new (IdCoordinateSystem.at_time Unit Iso 1) Iso.one) (by decide)⟩

/-- Claim C3: group_mul on elements sharing a coordinate system returns the element
anchored in that coordinate system whose coordinates are the quaternion
product (rotation group), the isometry composition with translation
a.rotation·b.translation + a.translation (rigid-pose group), or the vector
sum (translation group); on differing coordinate systems it fails (none). -/
theorem claim_c3 :
    ∀ (F : Type) (inst : DecidableEq F),
      (∀ a b : ManifoldElement F SO3 (Quaternion ℝ),
        (a.coordinate_system = b.coordinate_system →
          SO3.group_mul a b = some ⟨a.coordinate_system, a.coordinates * b.coordinates⟩)
        ∧ (a.coordinate_system ≠ b.coordinate_system → SO3.group_mul a b = none))
      ∧ (∀ a b : ManifoldElement F SE3 Iso,
        (a.coordinate_system = b.coordinate_system →
          SE3.group_mul a b = some ⟨a.coordinate_system,
            ⟨a.coordinates.rot * b.coordinates.rot,
              rotv a.coordinates.rot b.coordinates.trans + a.coordinates.trans⟩⟩)
        ∧ (a.coordinate_system ≠ b.coordinate_system → SE3.group_mul a b = none))
      ∧ (∀ a b : ManifoldElement F R3 Vec3,
        (a.coordinate_system = b.coordinate_system →
          R3.group_mul a b = some ⟨a.coordinate_system, a.coordinates + b.coordinates⟩)
        ∧ (a.coordinate_system ≠ b.coordinate_system → R3.group_mul a b = none)) := by
  intro F inst
  refine ⟨fun a b => ⟨fun h => ?_, fun h => ?_⟩,
    fun a b => ⟨fun h => ?_, fun h => ?_⟩, fun a b => ⟨fun h => ?_, fun h => ?_⟩⟩
  · simp [SO3.group_mul, h]
  · simp [SO3.group_mul, h]
  · simp [SE3.group_mul, h, Iso.mul]
  · simp [SE3.group_mul, h]
  · simp [R3.group_mul, h]
  · simp [R3.group_mul, h]

/-- Witness for C3: concrete rigid-pose elements in one coordinate system
multiply to the isometry composition, and a timestamp mismatch fails. -/
theorem claim_c3_witness :
    (SE3.group_mul
        (⟨CoordinateSystem.at_time Unit SE3 Iso 0, Iso.one⟩ : ManifoldElement Unit SE3 Iso)
        ⟨CoordinateSystem.at_time Unit SE3 Iso 0, Iso.one⟩
      = some ⟨CoordinateSystem.at_time Unit SE3 Iso 0,
          ⟨Iso.one.rot * Iso.one.rot, rotv Iso.one.rot Iso.one.trans + Iso.one.trans⟩⟩)
    ∧ (SO3.group_mul
        (⟨CoordinateSystem.at_time Unit SO3 (Quaternion ℝ) 0, 1⟩ :
          ManifoldElement Unit SO3 (Quaternion ℝ))
        ⟨CoordinateSystem.at_time Unit SO3 (Quaternion ℝ) 1, 1⟩ = none) :=
  ⟨((claim_c3 Unit inferInstance).2.1 _ _).1 rfl,
    ((claim_c3 Unit inferInstance).1 _ _).2 (by decide)⟩

/-- Claim C7: applying a ProjectiveTransform to a point in its source coordinate
system never fails: the numeric result ((k t).x/(k t).z, (k t).y/(k t).z)
anchored at dst is always returned, and the non-fatal diagnostic condition is
exactly projected depth ≤ 0. -/
theorem claim_c7 :
    ∀ (DstId SrcId : Type) (T : ProjectiveTransform DstId SrcId) (p : Point SrcId Iso),
      p.coordinate_system = T.src →
        T.transform_point p = some (Point.new T.dst
          ⟨(T.k.mulVec p.coordinates.trans).x / (T.k.mulVec p.coordinates.trans).z,
            (T.k.mulVec p.coordinates.trans).y / (T.k.mulVec p.coordinates.trans).z⟩)
        ∧ ((T.k.mulVec p.coordinates.trans).z ≤ 0 ↔ T.warns p) := by
  intro DstId SrcId T p h
  refine ⟨?_, Iff.rfl⟩
  simp [ProjectiveTransform.transform_point, ProjectiveTransform.transform_inner, h.symm]

/-- Witness for C7: a concrete point behind the projection center (depth
−1 ≤ 0) still yields a returned result. -/
theorem claim_c7_witness :
    ((Point.new (IdCoordinateSystem.at_time Unit Iso 0) ⟨1, ⟨0, 0, -1⟩⟩ :
        Point Unit Iso).coordinate_system
      = ((⟨IdCoordinateSystem.at_time Unit Vec2 0, IdCoordinateSystem.at_time Unit Iso 0,
          ⟨⟨1, 0, 0⟩, ⟨0, 1, 0⟩, ⟨0, 0, 1⟩⟩⟩ : ProjectiveTransform Unit Unit)).src)
    ∧ ((⟨IdCoordinateSystem.at_time Unit Vec2 0, IdCoordinateSystem.at_time Unit Iso 0,
        ⟨⟨1, 0, 0⟩, ⟨0, 1, 0⟩, ⟨0, 0, 1⟩⟩⟩ : ProjectiveTransform Unit Unit)).transform_point
        (Point.new (IdCoordinateSystem.at_time Unit Iso 0) ⟨1, ⟨0, 0, -1⟩⟩)
      = some (Point.new (IdCoordinateSystem.at_time Unit Vec2 0)
          ⟨((⟨⟨1, 0, 0⟩, ⟨0, 1, 0⟩, ⟨0, 0, 1⟩⟩ : Mat3).mulVec ⟨0, 0, -1⟩).x /
              ((⟨⟨1, 0, 0⟩, ⟨0, 1, 0⟩, ⟨0, 0, 1⟩⟩ : Mat3).mulVec ⟨0, 0, -1⟩).z,
            ((⟨⟨1, 0, 0⟩, ⟨0, 1, 0⟩, ⟨0, 0, 1⟩⟩ : Mat3).mulVec ⟨0, 0, -1⟩).y /
              ((⟨⟨1, 0, 0⟩, ⟨0, 1, 0⟩, ⟨0, 0, 1⟩⟩ : Mat3).mulVec ⟨0, 0, -1⟩).z⟩) :=
  ⟨rfl,
    (claim_c7 Unit Unit
      ⟨IdCoordinateSystem.at_time Unit Vec2 0, IdCoordinateSystem.at_time Unit Iso 0,
        ⟨⟨1, 0, 0⟩, ⟨0, 1, 0⟩, ⟨0, 0, 1⟩⟩⟩
      (Point.new (IdCoordinateSystem.at_time Unit Iso 0) ⟨1, ⟨0, 0, -1⟩⟩) rfl).1⟩

/-- Claim C8: at_time on a StaticSE3Transform returns a Transform whose destination
and source coordinate systems both carry the given timestamp (with the
statically fixed endpoint identities) and whose stored representation is the
static representation unchanged. -/
theorem claim_c8 :
    ∀ (DstId SrcId : Type) (s : StaticSE3Transform DstId SrcId) (t : Nat),
      (s.at_time t).dst = IdCoordinateSystem.at_time DstId Iso t
      ∧ (s.at_time t).src = IdCoordinateSystem.at_time SrcId Iso t
      ∧ (s.at_time t).dst.time = t
      ∧ (s.at_time t).src.time = t
      ∧ (s.at_time t).transform = s.transform := by
  intro DstId SrcId s t
  exact ⟨rfl, rfl, rfl, rfl, rfl⟩

/-- Claim C9: transform_inner performs no coordinate-system check: for any point of
the statically matching frame-tag type it returns a result anchored at dst
without failing, even when the coordinate systems (timestamps) differ and the
checked transform call would abort. -/
theorem claim_c9 :
    ∀ (DstId SrcId : Type) (T : SE3Transform DstId SrcId)
      (P : ProjectiveTransform DstId SrcId) (p q : Point SrcId Iso),
      (T.transform_inner p).coordinate_system = T.dst
      ∧ (P.transform_inner q).coordinate_system = P.dst
      ∧ (p.coordinate_system ≠ T.src →
          T.transform_point p = none
          ∧ T.transform_inner p = Point.new T.dst (T.transform.mul p.coordinates))
      ∧ (q.coordinate_system ≠ P.src →
          P.transform_point q = none
          ∧ (P.transform_inner q).coordinate_system = P.dst) := by
  intro DstId SrcId T P p q
  refine ⟨rfl, rfl, fun h => ⟨?_, rfl⟩, fun h => ⟨?_, rfl⟩⟩
  · have h' : ¬T.src = p.coordinate_system := fun hc => h hc.symm
    simp [SE3Transform.transform_point, if_neg h']
  · have h' : ¬P.src = q.coordinate_system := fun hc => h hc.symm
    simp [ProjectiveTransform.transform_point, if_neg h']

/-- Witness for C9: a concrete timestamp mismatch where the checked call
aborts while transform_inner still produces a dst-anchored result. -/
theorem claim_c9_witness :
    ((Point.new (IdCoordinateSystem.at_time Unit Iso 1) Iso.one :
        Point Unit Iso).coordinate_system
      ≠ ((⟨IdCoordinateSystem.at_time Unit Iso 0, IdCoordinateSystem.at_time Unit Iso 0,
          Iso.one⟩ : SE3Transform Unit Unit)).src)
    ∧ ((⟨IdCoordinateSystem.at_time Unit Iso 0, IdCoordinateSystem.at_time Unit Iso 0,
        Iso.one⟩ : SE3Transform Unit Unit)).transform_point
        (Point.new (IdCoordinateSystem.at_time Unit Iso 1) Iso.one) = none
    ∧ (⟨IdCoordinateSystem.at_time Unit Iso 0, IdCoordinateSystem.at_time Unit Iso 0,
        Iso.one⟩ : SE3Transform Unit Unit).transform_inner
        (Point.new (IdCoordinateSystem.at_time Unit Iso 1) Iso.one)
      = Point.new (IdCoordinateSystem.at_time Unit Iso 0)
          (Iso.one.mul (Point.new (IdCoordinateSystem.at_time Unit Iso 1) Iso.one).coordinates) :=
  ⟨by decide,
    ((claim_c9 Unit Unit
        ⟨IdCoordinateSystem.at_time Unit Iso 0, IdCoordinateSystem.at_time Unit Iso 0, Iso.one⟩
        ⟨IdCoordinateSystem.at_time Unit Vec2 0, IdCoordinateSystem.at_time Unit Iso 0,
          ⟨⟨1, 0, 0⟩, ⟨0, 1, 0⟩, ⟨0, 0, 1⟩⟩⟩
        (Point.new (IdCoordinateSystem.at_time Unit Iso 1) Iso.one)
        (Point.new (IdCoordinateSystem.at_time Unit Iso 1) Iso.one)).2.2.1 (by decide)).1,
    ((claim_c9 Unit Unit
        ⟨IdCoordinateSystem.at_time Unit Iso 0, IdCoordinateSystem.at_time Unit Iso 0, Iso.one⟩
        ⟨IdCoordinateSystem.at_time Unit Vec2 0, IdCoordinateSystem.at_time Unit Iso 0,
          ⟨⟨1, 0, 0⟩, ⟨0, 1, 0⟩, ⟨0, 0, 1⟩⟩⟩
        (Point.new (IdCoordinateSystem.at_time Unit Iso 1) Iso.one)
        (Point.new (IdCoordinateSystem.at_time Unit Iso 1) Iso.one)).2.2.1 (by decide)).2⟩

/-! ## Posture float invariants (posture.rs) -/

theorem F32.validate_ok {x y : F32} (h : F32.validate x = some y) : y.ok := by
  cases x with
  | nan => exact absurd h (by simp [F32.validate])
  | negZero =>
    rw [(by decide : F32.validate F32.negZero = some (F32.fin 0))] at h
    injection h with h
    rw [← h]
    exact ⟨by simp, by simp⟩
  | fin v =>
    have hval : F32.validate (F32.fin v) = some (if v = 0 then F32.fin 0 else F32.fin v) := by
      by_cases hv : v = 0 <;> simp [F32.validate, F32.feq, F32.toVal, hv]
    rw [hval] at h
    injection h with h
    rw [← h]
    by_cases hv : v = 0 <;> simp [hv, F32.ok]

theorem F32.partial_cmp_some {a b : F32} (ha : a ≠ F32.nan) (hb : b ≠ F32.nan) :
    ∃ o, F32.partial_cmp a b = some o := by
  cases a <;> cases b <;> simp_all [F32.partial_cmp]

theorem F32.feq_ok_eq {a b : F32} (ha : a.ok) (hb : b.ok) (h : a.feq b = true) : a = b := by
  cases a <;> cases b <;> simp_all [F32.feq, F32.ok, F32.toVal]

/-- Claim C10: every Posture reachable through the public constructors and
operations (all of which validate the four stored components) contains no NaN
and no negative zero; under this invariant the Ord implementation's
component-wise partial_cmp unwrap never panics (cmp returns some), and values
equal under the derived Eq produce equal hashes (bit patterns). -/
theorem claim_c10 :
    (∀ (a b c d : F32) (p : Posture), Posture.construct a b c d = some p → Posture.ok p)
    ∧ (∀ p q : Posture, Posture.ok p → Posture.ok q → ∃ o, Posture.cmp p q = some o)
    ∧ (∀ p q : Posture, Posture.ok p → Posture.ok q → Posture.feq p q = true →
        Posture.hash_bits p = Posture.hash_bits q) := by
  refine ⟨?_, ?_, ?_⟩
  · intro a b c d p h
    simp only [Posture.construct, Posture.validate, Option.bind_eq_some] at h
    obtain ⟨ta, ha, ⟨tb, hb, ⟨tc, hc, ⟨td, hd, hp⟩⟩⟩⟩ := h
    rw [← Option.some_inj] at hp
    simp only [Option.some_inj] at hp
    rw [← hp]
    exact ⟨F32.validate_ok ha, F32.validate_ok hb, F32.validate_ok hc, F32.validate_ok hd⟩
  · intro p q hp hq
    obtain ⟨o1, h1⟩ := F32.partial_cmp_some hp.1.1 hq.1.1
    obtain ⟨o2, h2⟩ := F32.partial_cmp_some hp.2.1.1 hq.2.1.1
    obtain ⟨o3, h3⟩ := F32.partial_cmp_some hp.2.2.1.1 hq.2.2.1.1
    obtain ⟨o4, h4⟩ := F32.partial_cmp_some hp.2.2.2.1 hq.2.2.2.1
    cases o1 <;> cases o2 <;> cases o3 <;> cases o4 <;>
      simp [Posture.cmp, h1, h2, h3, h4, thenWithOpt]
  · intro p q hp hq h
    simp only [Posture.feq, Bool.and_eq_true] at h
    obtain ⟨⟨⟨h1, h2⟩, h3⟩, h4⟩ := h
    simp only [Posture.hash_bits]
    rw [F32.feq_ok_eq hp.1 hq.1 h1, F32.feq_ok_eq hp.2.1 hq.2.1 h2,
      F32.feq_ok_eq hp.2.2.1 hq.2.2.1 h3, F32.feq_ok_eq hp.2.2.2 hq.2.2.2 h4]

/-- Witness for C10: a concrete construction (with a negative-zero raw input)
produces a valid Posture, whose comparison with itself succeeds. -/
theorem claim_c10_witness :
    Posture.construct (F32.fin 1) F32.negZero (F32.fin 0) (F32.fin (-2))
      = some ⟨F32.fin 1, F32.fin 0, F32.fin 0, F32.fin (-2)⟩
    ∧ Posture.ok ⟨F32.fin 1, F32.fin 0, F32.fin 0, F32.fin (-2)⟩
    ∧ ∃ o, Posture.cmp ⟨F32.fin 1, F32.fin 0, F32.fin 0, F32.fin (-2)⟩
        ⟨F32.fin 1, F32.fin 0, F32.fin 0, F32.fin (-2)⟩ = some o :=
  ⟨by decide,
    claim_c10.1 (F32.fin 1) F32.negZero (F32.fin 0) (F32.fin (-2)) _ (by decide),
    claim_c10.2.1 _ _
      (claim_c10.1 (F32.fin 1) F32.negZero (F32.fin 0) (F32.fin (-2)) _ (by decide))
      (claim_c10.1 (F32.fin 1) F32.negZero (F32.fin 0) (F32.fin (-2)) _ (by decide))⟩

/-! ## Quaternion rotation-action lemmas -/

theorem qvec_pureQ (v : Vec3) : qvec (pureQ v) = v := by
  ext <;> rfl

theorem pureQ_add (u v : Vec3) : pureQ (u + v) = pureQ u + pureQ v := by
  apply Quaternion.ext <;> simp [pureQ]

theorem pureQ_neg (v : Vec3) : pureQ (-v) = -pureQ v := by
  apply Quaternion.ext <;> simp [pureQ]

theorem qvec_add (x y : Quaternion ℝ) : qvec (x + y) = qvec x + qvec y := by
  ext <;> simp [qvec]

theorem qvec_neg (x : Quaternion ℝ) : qvec (-x) = -qvec x := by
  ext <;> simp [qvec]

theorem sandwich_re_eq (q p : Quaternion ℝ) : (q * p * star q).re = normSq q * p.re := by
  simp only [Quaternion.mul_re, Quaternion.mul_imI, Quaternion.mul_imJ, Quaternion.mul_imK,
    Quaternion.star_re, Quaternion.star_imI, Quaternion.star_imJ, Quaternion.star_imK,
    Quaternion.normSq_def']
  ring

theorem pureQ_qvec_of_re {p : Quaternion ℝ} (h : p.re = 0) : pureQ (qvec p) = p := by
  apply Quaternion.ext <;> simp [pureQ, qvec, h]

theorem sandwich_add (q : Quaternion ℝ) (u v : Vec3) :
    sandwich q (u + v) = sandwich q u + sandwich q v := by
  unfold sandwich
  rw [pureQ_add, mul_add, add_mul, qvec_add]

theorem sandwich_neg (q : Quaternion ℝ) (v : Vec3) : sandwich q (-v) = -sandwich q v := by
  unfold sandwich
  rw [pureQ_neg, mul_neg, neg_mul, qvec_neg]

theorem sandwich_mul (q r : Quaternion ℝ) (v : Vec3) :
    sandwich (q * r) v = sandwich q (sandwich r v) := by
  unfold sandwich
  rw [pureQ_qvec_of_re (by rw [sandwich_re_eq]; simp [pureQ])]
  rw [star_mul]
  simp [mul_assoc]

theorem sandwich_one (v : Vec3) : sandwich 1 v = v := by
  unfold sandwich
  rw [star_one, one_mul, mul_one, qvec_pureQ]

theorem sandwich_unit_cancel {q : Quaternion ℝ} (h : normSq q = 1) (v : Vec3) :
    sandwich (star q) (sandwich q v) = v := by
  rw [← sandwich_mul, Quaternion.star_mul_self, h, Quaternion.coe_one, sandwich_one]

theorem sandwich_unit_cancel' {q : Quaternion ℝ} (h : normSq q = 1) (v : Vec3) :
    sandwich q (sandwich (star q) v) = v := by
  rw [← sandwich_mul, Quaternion.self_mul_star, h, Quaternion.coe_one, sandwich_one]

theorem rotv_eq_sandwich {q : Quaternion ℝ} (h : normSq q = 1) (v : Vec3) :
    rotv q v = sandwich q v := by
  have h' : q.re ^ 2 + q.imI ^ 2 + q.imJ ^ 2 + q.imK ^ 2 = 1 := by
    rw [← Quaternion.normSq_def']; exact h
  apply Vec3.ext
  · simp only [rotv, sandwich, qvec, pureQ, Vec3.cross_x, Vec3.cross_y, Vec3.cross_z,
      Vec3.add_x, Vec3.add_y, Vec3.add_z, Vec3.smul_x, Vec3.smul_y, Vec3.smul_z,
      Quaternion.mul_re, Quaternion.mul_imI, Quaternion.mul_imJ, Quaternion.mul_imK,
      Quaternion.star_re, Quaternion.star_imI, Quaternion.star_imJ, Quaternion.star_imK]
    linear_combination (-v.x) * h'
  · simp only [rotv, sandwich, qvec, pureQ, Vec3.cross_x, Vec3.cross_y, Vec3.cross_z,
      Vec3.add_x, Vec3.add_y, Vec3.add_z, Vec3.smul_x, Vec3.smul_y, Vec3.smul_z,
      Quaternion.mul_re, Quaternion.mul_imI, Quaternion.mul_imJ, Quaternion.mul_imK,
      Quaternion.star_re, Quaternion.star_imI, Quaternion.star_imJ, Quaternion.star_imK]
    linear_combination (-v.y) * h'
  · simp only [rotv, sandwich, qvec, pureQ, Vec3.cross_x, Vec3.cross_y, Vec3.cross_z,
      Vec3.add_x, Vec3.add_y, Vec3.add_z, Vec3.smul_x, Vec3.smul_y, Vec3.smul_z,
      Quaternion.mul_re, Quaternion.mul_imI, Quaternion.mul_imJ, Quaternion.mul_imK,
      Quaternion.star_re, Quaternion.star_imI, Quaternion.star_imJ, Quaternion.star_imK]
    linear_combination (-v.z) * h'

theorem iso_inv_mul_cancel {a : Iso} (h : normSq a.rot = 1) (b : Iso) :
    (a.inverse).mul (a.mul b) = b := by
  have hs : normSq (star a.rot) = 1 := by rw [Quaternion.normSq_star]; exact h
  apply Iso.ext
  · show star a.rot * (a.rot * b.rot) = b.rot
    rw [← mul_assoc, Quaternion.star_mul_self, h, Quaternion.coe_one, one_mul]
  · show rotv (star a.rot) (rotv a.rot b.trans + a.trans) + rotv (star a.rot) (-a.trans)
      = b.trans
    rw [rotv_eq_sandwich hs, rotv_eq_sandwich h, rotv_eq_sandwich hs,
      sandwich_add, sandwich_unit_cancel h, sandwich_neg]
    apply Vec3.ext <;>
      simp only [Vec3.add_x, Vec3.add_y, Vec3.add_z, Vec3.neg_x, Vec3.neg_y, Vec3.neg_z] <;>
      ring

theorem iso_mul_inv_cancel {a : Iso} (h : normSq a.rot = 1) (b : Iso) :
    a.mul ((a.inverse).mul b) = b := by
  have hs : normSq (star a.rot) = 1 := by rw [Quaternion.normSq_star]; exact h
  apply Iso.ext
  · show a.rot * (star a.rot * b.rot) = b.rot
    rw [← mul_assoc, Quaternion.self_mul_star, h, Quaternion.coe_one, one_mul]
  · show rotv a.rot (rotv (star a.rot) b.trans + rotv (star a.rot) (-a.trans)) + a.trans
      = b.trans
    rw [rotv_eq_sandwich h, rotv_eq_sandwich hs, rotv_eq_sandwich hs, sandwich_neg,
      sandwich_add, sandwich_neg, sandwich_unit_cancel' h, sandwich_unit_cancel' h]
    apply Vec3.ext <;>
      simp only [Vec3.add_x, Vec3.add_y, Vec3.add_z, Vec3.neg_x, Vec3.neg_y, Vec3.neg_z] <;>
      ring

/-- Claim C2: for an SE3 Transform with unit rotation applied to a point in its
source coordinate system, invert() swaps src and dst and stores the isometry
inverse, and the round trip T.invert().transform(T.transform(p)) recovers p
exactly (hence within any tolerance), anchored back in T.src(). -/
theorem claim_c2 :
    ∀ (DstId SrcId : Type) (T : SE3Transform DstId SrcId) (p : Point SrcId Iso),
      p.coordinate_system = T.src → normSq T.transform.rot = 1 →
        T.invert.dst = T.src ∧ T.invert.src = T.dst
        ∧ T.invert.transform = T.transform.inverse
        ∧ (T.transform_point p).bind (fun q => T.invert.transform_point q) = some p := by
  intro DstId SrcId T p hcs hunit
  refine ⟨rfl, rfl, rfl, ?_⟩
  have h1 : T.transform_point p = some (T.transform_inner p) := by
    rw [SE3Transform.transform_point, if_pos hcs.symm]
  rw [h1]
  show T.invert.transform_point (T.transform_inner p) = some p
  have h2 : T.invert.src = (T.transform_inner p).coordinate_system := rfl
  rw [SE3Transform.transform_point, if_pos h2]
  show some (Point.new T.src ((T.transform.inverse).mul (T.transform.mul p.coordinates)))
    = some p
  rw [iso_inv_mul_cancel hunit]
  cases p with
  | mk cs coords => rw [show cs = T.src from hcs]; rfl

/-- Witness for C2: a concrete transform with unit rotation round-trips a
concrete point exactly. -/
theorem claim_c2_witness :
    ((Point.new (IdCoordinateSystem.at_time Unit Iso 0) ⟨1, ⟨3, 4, 5⟩⟩ :
        Point Unit Iso).coordinate_system
      = ((⟨IdCoordinateSystem.at_time Unit Iso 0, IdCoordinateSystem.at_time Unit Iso 0,
          ⟨1, ⟨1, 2, 3⟩⟩⟩ : SE3Transform Unit Unit)).src)
    ∧ normSq ((⟨IdCoordinateSystem.at_time Unit Iso 0, IdCoordinateSystem.at_time Unit Iso 0,
        ⟨1, ⟨1, 2, 3⟩⟩⟩ : SE3Transform Unit Unit)).transform.rot = 1
    ∧ (((⟨IdCoordinateSystem.at_time Unit Iso 0, IdCoordinateSystem.at_time Unit Iso 0,
        ⟨1, ⟨1, 2, 3⟩⟩⟩ : SE3Transform Unit Unit)).transform_point
          (Point.new (IdCoordinateSystem.at_time Unit Iso 0) ⟨1, ⟨3, 4, 5⟩⟩)).bind
        (fun q => ((⟨IdCoordinateSystem.at_time Unit Iso 0,
          IdCoordinateSystem.at_time Unit Iso 0,
          ⟨1, ⟨1, 2, 3⟩⟩⟩ : SE3Transform Unit Unit)).invert.transform_point q)
      = some (Point.new (IdCoordinateSystem.at_time Unit Iso 0) ⟨1, ⟨3, 4, 5⟩⟩) :=
  ⟨rfl, by simp [Quaternion.normSq_def'],
    (claim_c2 Unit Unit
      ⟨IdCoordinateSystem.at_time Unit Iso 0, IdCoordinateSystem.at_time Unit Iso 0,
        ⟨1, ⟨1, 2, 3⟩⟩⟩
      (Point.new (IdCoordinateSystem.at_time Unit Iso 0) ⟨1, ⟨3, 4, 5⟩⟩) rfl
      (by simp [Quaternion.normSq_def'])).2.2.2⟩

/-! ## Vector algebra kit -/

theorem Vec3.dot_comm (a b : Vec3) : a.dot b = b.dot a := by
  simp only [Vec3.dot]; ring

theorem Vec3.dot_add_right (a b c : Vec3) : a.dot (b + c) = a.dot b + a.dot c := by
  simp only [Vec3.dot, Vec3.add_x, Vec3.add_y, Vec3.add_z]; ring

theorem Vec3.dot_sub_right (a b c : Vec3) : a.dot (b - c) = a.dot b - a.dot c := by
  simp only [Vec3.dot, Vec3.sub_x, Vec3.sub_y, Vec3.sub_z]; ring

theorem Vec3.dot_smul_right (c : ℝ) (a b : Vec3) : a.dot (c • b) = c * a.dot b := by
  simp only [Vec3.dot, Vec3.smul_x, Vec3.smul_y, Vec3.smul_z]; ring

theorem Vec3.dot_cross_right (u a : Vec3) : u.dot (a.cross u) = 0 := by
  simp only [Vec3.dot, Vec3.cross_x, Vec3.cross_y, Vec3.cross_z]; ring

theorem Vec3.dot_cross_left (u a : Vec3) : u.dot (u.cross a) = 0 := by
  simp only [Vec3.dot, Vec3.cross_x, Vec3.cross_y, Vec3.cross_z]; ring

theorem Vec3.cross_dot_self_right (u x : Vec3) : (u.cross x).dot u = 0 := by
  simp only [Vec3.dot, Vec3.cross_x, Vec3.cross_y, Vec3.cross_z]; ring

theorem Vec3.cross_smul_left (c : ℝ) (a b : Vec3) : (c • a).cross b = c • (a.cross b) := by
  apply Vec3.ext <;> simp <;> ring

theorem Vec3.cross_smul_right (c : ℝ) (a b : Vec3) : a.cross (c • b) = c • (a.cross b) := by
  apply Vec3.ext <;> simp <;> ring

theorem Vec3.cross_sub_right (a b c : Vec3) : a.cross (b - c) = a.cross b - a.cross c := by
  apply Vec3.ext <;> simp <;> ring

theorem Vec3.cross_anticomm (a b : Vec3) : a.cross b = -(b.cross a) := by
  apply Vec3.ext <;> simp <;> ring

theorem Vec3.triple (u a : Vec3) :
    u.cross (a.cross u) = (u.dot u) • a - (u.dot a) • u := by
  apply Vec3.ext <;> simp [Vec3.dot] <;> ring

theorem Vec3.triple' (u a : Vec3) :
    (u.cross a).cross u = (u.dot u) • a - (u.dot a) • u := by
  apply Vec3.ext <;> simp [Vec3.dot] <;> ring

theorem Vec3.div_eq_smul (v : Vec3) (c : ℝ) : v / c = c⁻¹ • v := by
  apply Vec3.ext <;> simp [div_eq_inv_mul]

theorem Vec3.smul_smul (c d : ℝ) (v : Vec3) : c • (d • v) = (c * d) • v := by
  apply Vec3.ext <;> simp <;> ring

theorem Vec3.one_smul (v : Vec3) : (1 : ℝ) • v = v := by
  apply Vec3.ext <;> simp

theorem Vec3.zero_smul (v : Vec3) : (0 : ℝ) • v = 0 := by
  apply Vec3.ext <;> simp

/-! ## Norm and angle lemmas -/

theorem Vec3.dot_self_nonneg (v : Vec3) : 0 ≤ v.dot v := by
  simp only [Vec3.dot]
  nlinarith [mul_self_nonneg v.x, mul_self_nonneg v.y, mul_self_nonneg v.z]

theorem Vec3.norm_nonneg (v : Vec3) : 0 ≤ v.norm := Real.sqrt_nonneg _

theorem Vec3.norm_sq (v : Vec3) : v.norm ^ 2 = v.dot v := Real.sq_sqrt v.dot_self_nonneg

theorem Vec3.norm_zero : (0 : Vec3).norm = 0 := by
  simp [Vec3.norm, Vec3.dot]

theorem Vec3.norm_eq_zero_iff (v : Vec3) : v.norm = 0 ↔ v = 0 := by
  constructor
  · intro h
    have hd : v.dot v = 0 := by
      have := v.norm_sq
      rw [h] at this
      linarith [this]
    simp only [Vec3.dot] at hd
    apply Vec3.ext <;> simp only [Vec3.zero_x, Vec3.zero_y, Vec3.zero_z] <;>
      nlinarith [mul_self_nonneg v.x, mul_self_nonneg v.y, mul_self_nonneg v.z]
  · intro h; rw [h]; exact Vec3.norm_zero

theorem Vec3.norm_neg (v : Vec3) : (-v).norm = v.norm := by
  simp only [Vec3.norm, Vec3.dot, Vec3.neg_x, Vec3.neg_y, Vec3.neg_z]
  ring_nf

theorem Vec3.norm_smul (c : ℝ) (v : Vec3) : (c • v).norm = |c| * v.norm := by
  have h1 : (c • v).dot (c • v) = c ^ 2 * v.dot v := by
    simp only [Vec3.dot, Vec3.smul_x, Vec3.smul_y, Vec3.smul_z]; ring
  rw [Vec3.norm, h1, Vec3.norm, Real.sqrt_mul (sq_nonneg c), Real.sqrt_sq_eq_abs]

theorem normSq_decomp (q : Quaternion ℝ) : normSq q = q.re ^ 2 + (qvec q).dot (qvec q) := by
  rw [Quaternion.normSq_def']
  simp only [qvec, Vec3.dot]
  ring

theorem qvec_dot_of_unit {q : Quaternion ℝ} (h : normSq q = 1) :
    (qvec q).dot (qvec q) = 1 - q.re ^ 2 := by
  have := normSq_decomp q
  rw [h] at this
  linarith

theorem abs_re_le_one {q : Quaternion ℝ} (h : normSq q = 1) : |q.re| ≤ 1 := by
  have h1 := qvec_dot_of_unit h
  have h2 := (qvec q).dot_self_nonneg
  have h3 : q.re ^ 2 ≤ 1 := by linarith
  nlinarith [abs_nonneg q.re, sq_abs q.re]

theorem vangle_nonneg (q : Quaternion ℝ) : 0 ≤ vangle q := by
  have := Real.arccos_nonneg |q.re|
  simp only [vangle]
  linarith

theorem vangle_le_pi (q : Quaternion ℝ) : vangle q ≤ π := by
  have := Real.arccos_le_pi_div_two.mpr (abs_nonneg q.re)
  simp only [vangle]
  linarith

theorem cos_half_vangle {q : Quaternion ℝ} (h : normSq q = 1) :
    Real.cos (vangle q / 2) = |q.re| := by
  have h1 : vangle q / 2 = Real.arccos |q.re| := by simp only [vangle]; ring
  rw [h1, Real.cos_arccos (by linarith [abs_nonneg q.re]) (abs_re_le_one h)]

theorem sin_half_vangle {q : Quaternion ℝ} (h : normSq q = 1) :
    Real.sin (vangle q / 2) = Real.sqrt (1 - q.re ^ 2) := by
  have h1 : vangle q / 2 = Real.arccos |q.re| := by simp only [vangle]; ring
  rw [h1, Real.sin_arccos, sq_abs]

theorem norm_qvec_unit {q : Quaternion ℝ} (h : normSq q = 1) :
    (qvec q).norm = Real.sqrt (1 - q.re ^ 2) := by
  rw [Vec3.norm, qvec_dot_of_unit h]

theorem qvec_x (q : Quaternion ℝ) : (qvec q).x = q.imI := rfl

theorem qvec_y (q : Quaternion ℝ) : (qvec q).y = q.imJ := rfl

theorem qvec_z (q : Quaternion ℝ) : (qvec q).z = q.imK := rfl

/-! ## Axis-angle reconstruction -/

theorem scaled_axis_eval (q : Quaternion ℝ) :
    scaled_axis q = if (qvec q).norm = 0 then 0
      else (vangle q / (qvec q).norm) • (if 0 ≤ q.re then qvec q else -(qvec q)) := by
  rw [scaled_axis]
  by_cases hre : 0 ≤ q.re
  · simp only [if_pos hre]
  · simp only [if_neg hre, Vec3.norm_neg]

theorem scaled_axis_norm {q : Quaternion ℝ} (h : normSq q = 1) :
    (scaled_axis q).norm = vangle q := by
  rw [scaled_axis_eval]
  by_cases h0 : (qvec q).norm = 0
  · rw [if_pos h0, Vec3.norm_zero]
    have hq0 : qvec q = 0 := (Vec3.norm_eq_zero_iff _).mp h0
    have hdz : (qvec q).dot (qvec q) = 0 := by rw [hq0]; simp [Vec3.dot]
    have hre2 : q.re ^ 2 = 1 := by
      have := qvec_dot_of_unit h; rw [hdz] at this; linarith
    have habs : |q.re| = 1 := by rw [← Real.sqrt_sq_eq_abs, hre2, Real.sqrt_one]
    rw [vangle, habs, Real.arccos_one, mul_zero]
  · rw [if_neg h0, Vec3.norm_smul]
    have hsign : (if 0 ≤ q.re then qvec q else -(qvec q)).norm = (qvec q).norm := by
      by_cases hre : 0 ≤ q.re
      · rw [if_pos hre]
      · rw [if_neg hre]; exact Vec3.norm_neg _
    rw [hsign]
    have hpos : 0 < (qvec q).norm := lt_of_le_of_ne (Vec3.norm_nonneg _) (Ne.symm h0)
    rw [abs_of_nonneg (div_nonneg (vangle_nonneg q) hpos.le), div_mul_cancel₀ _ h0]

theorem vangle_pos {q : Quaternion ℝ} (h : normSq q = 1) (h0 : (qvec q).norm ≠ 0) :
    0 < vangle q := by
  rcases eq_or_lt_of_le (vangle_nonneg q) with heq | hlt
  · exfalso
    have harc : Real.arccos |q.re| = 0 := by rw [vangle] at heq; linarith
    have habs : 1 ≤ |q.re| := Real.arccos_eq_zero.mp harc
    have hre2 : 1 ≤ q.re ^ 2 := by nlinarith [sq_abs q.re]
    have hd := qvec_dot_of_unit h
    have hge := (qvec q).dot_self_nonneg
    have hdz : (qvec q).dot (qvec q) = 0 := by linarith
    exact h0 (by rw [Vec3.norm, hdz, Real.sqrt_zero])
  · exact hlt

theorem from_scaled_axis_scaled_axis {q : Quaternion ℝ} (h : normSq q = 1) :
    from_scaled_axis (scaled_axis q) = q ∨ from_scaled_axis (scaled_axis q) = -q := by
  by_cases h0 : (qvec q).norm = 0
  · have hsa : scaled_axis q = 0 := by rw [scaled_axis_eval, if_pos h0]
    have hfs : from_scaled_axis (scaled_axis q) = 1 := by
      rw [hsa, from_scaled_axis, if_pos Vec3.norm_zero]
    have hq0 : qvec q = 0 := (Vec3.norm_eq_zero_iff _).mp h0
    have hI : q.imI = 0 := by
      have := congrArg Vec3.x hq0; simpa [qvec_x] using this
    have hJ : q.imJ = 0 := by
      have := congrArg Vec3.y hq0; simpa [qvec_y] using this
    have hK : q.imK = 0 := by
      have := congrArg Vec3.z hq0; simpa [qvec_z] using this
    have hdz : (qvec q).dot (qvec q) = 0 := by rw [hq0]; simp [Vec3.dot]
    have hre2 : q.re ^ 2 = 1 := by
      have := qvec_dot_of_unit h; rw [hdz] at this; linarith
    have hfac : (q.re - 1) * (q.re + 1) = 0 := by linear_combination hre2
    rcases mul_eq_zero.mp hfac with hh | hh
    · left
      have hre1 : q.re = 1 := by linarith
      rw [hfs]
      apply Quaternion.ext <;> simp [hre1, hI, hJ, hK]
    · right
      have hre1 : q.re = -1 := by linarith
      rw [hfs]
      apply Quaternion.ext <;> simp [hre1, hI, hJ, hK]
  · have hpos : 0 < (qvec q).norm := lt_of_le_of_ne (Vec3.norm_nonneg _) (Ne.symm h0)
    have hva_pos : 0 < vangle q := vangle_pos h h0
    have hW : (scaled_axis q).norm = vangle q := scaled_axis_norm h
    have hWnz : (scaled_axis q).norm ≠ 0 := by rw [hW]; exact ne_of_gt hva_pos
    have hsin : Real.sin (vangle q / 2) = (qvec q).norm := by
      rw [sin_half_vangle h, ← norm_qvec_unit h]
    have hsa : scaled_axis q
        = (vangle q / (qvec q).norm) • (if 0 ≤ q.re then qvec q else -(qvec q)) := by
      rw [scaled_axis_eval, if_neg h0]
    rw [from_scaled_axis, if_neg hWnz, hW]
    by_cases hre : 0 ≤ q.re
    · left
      have hx : (scaled_axis q).x = vangle q / (qvec q).norm * q.imI := by
        rw [hsa, if_pos hre]; rfl
      have hy : (scaled_axis q).y = vangle q / (qvec q).norm * q.imJ := by
        rw [hsa, if_pos hre]; rfl
      have hz : (scaled_axis q).z = vangle q / (qvec q).norm * q.imK := by
        rw [hsa, if_pos hre]; rfl
      apply Quaternion.ext
      · show Real.cos (vangle q / 2) = q.re
        rw [cos_half_vangle h, abs_of_nonneg hre]
      · show Real.sin (vangle q / 2) / vangle q * (scaled_axis q).x = q.imI
        rw [hsin, hx]
        field_simp
        ring
      · show Real.sin (vangle q / 2) / vangle q * (scaled_axis q).y = q.imJ
        rw [hsin, hy]
        field_simp
        ring
      · show Real.sin (vangle q / 2) / vangle q * (scaled_axis q).z = q.imK
        rw [hsin, hz]
        field_simp
        ring
    · right
      have hre' : q.re < 0 := lt_of_not_ge hre
      have hx : (scaled_axis q).x = vangle q / (qvec q).norm * (-q.imI) := by
        rw [hsa, if_neg hre]; rfl
      have hy : (scaled_axis q).y = vangle q / (qvec q).norm * (-q.imJ) := by
        rw [hsa, if_neg hre]; rfl
      have hz : (scaled_axis q).z = vangle q / (qvec q).norm * (-q.imK) := by
        rw [hsa, if_neg hre]; rfl
      apply Quaternion.ext
      · show Real.cos (vangle q / 2) = (-q).re
        rw [cos_half_vangle h, abs_of_neg hre', Quaternion.neg_re]
      · show Real.sin (vangle q / 2) / vangle q * (scaled_axis q).x = (-q).imI
        rw [hsin, hx, Quaternion.neg_imI]
        field_simp
        ring
      · show Real.sin (vangle q / 2) / vangle q * (scaled_axis q).y = (-q).imJ
        rw [hsin, hy, Quaternion.neg_imJ]
        field_simp
        ring
      · show Real.sin (vangle q / 2) / vangle q * (scaled_axis q).z = (-q).imK
        rw [hsin, hz, Quaternion.neg_imK]
        field_simp
        ring

/-- Rodrigues rotation of a vector perpendicular to the axis: the nalgebra
rotation-apply formula for the quaternion (c, s·u) rotates x in the plane
perpendicular to the unit axis u by the double angle. -/
theorem rotv_axis (c s : ℝ) (u x : Vec3) (hu : u.dot u = 1) (hx : u.dot x = 0)
    (hcs : c ^ 2 + s ^ 2 = 1) :
    rotv ⟨c, s * u.x, s * u.y, s * u.z⟩ x
      = ((c ^ 2 - s ^ 2) • x) + (((2 : ℝ) * c * s) • (u.cross x)) := by
  have hu' : u.x * u.x + u.y * u.y + u.z * u.z = 1 := by simpa [Vec3.dot] using hu
  have hx' : u.x * x.x + u.y * x.y + u.z * x.z = 0 := by simpa [Vec3.dot] using hx
  apply Vec3.ext
  · simp only [rotv, qvec, Vec3.cross_x, Vec3.cross_y, Vec3.cross_z, Vec3.add_x, Vec3.add_y,
      Vec3.add_z, Vec3.smul_x, Vec3.smul_y, Vec3.smul_z]
    linear_combination (2 * s ^ 2 * u.x) * hx' + (-(2 * s ^ 2 * x.x)) * hu' + (-x.x) * hcs
  · simp only [rotv, qvec, Vec3.cross_x, Vec3.cross_y, Vec3.cross_z, Vec3.add_x, Vec3.add_y,
      Vec3.add_z, Vec3.smul_x, Vec3.smul_y, Vec3.smul_z]
    linear_combination (2 * s ^ 2 * u.y) * hx' + (-(2 * s ^ 2 * x.y)) * hu' + (-x.y) * hcs
  · simp only [rotv, qvec, Vec3.cross_x, Vec3.cross_y, Vec3.cross_z, Vec3.add_x, Vec3.add_y,
      Vec3.add_z, Vec3.smul_x, Vec3.smul_y, Vec3.smul_z]
    linear_combination (2 * s ^ 2 * u.z) * hx' + (-(2 * s ^ 2 * x.z)) * hu' + (-x.z) * hcs

/-- The closed-form screw-motion exponential (lie.rs From) inverts the
closed-form screw-motion logarithm (lie.rs log_of) exactly, stated over the
unit axis u and angle θ with each intermediate of the two codes named by an
equation. -/
theorem screw_core (u t : Vec3) (θ : ℝ) (hu : u.dot u = 1) (hθ : 0 < θ) (hθpi : θ ≤ π)
    (R : Quaternion ℝ)
    (hR : R = ⟨Real.cos (θ / 2), Real.sin (θ / 2) * u.x, Real.sin (θ / 2) * u.y,
      Real.sin (θ / 2) * u.z⟩)
    (tproj tperp t1 v vp vperp t2 : Vec3)
    (htp : tproj = (t.dot u) • u)
    (hte : tperp = t - tproj)
    (ht1 : t1 = (tperp.cross u) / (2 : ℝ) / Real.tan (θ / 2) - tperp / (2 : ℝ))
    (hv : v = (θ • u).cross t1 + tproj)
    (hvp : vp = (v.dot u) • u)
    (hvq : vperp = v - vp)
    (ht2 : t2 = (vperp.cross u) / θ) :
    (rotv R t2 - t2) + vp = t := by
  set s := Real.sin (θ / 2) with hs_def
  set c := Real.cos (θ / 2) with hc_def
  have hspos : 0 < s := by
    rw [hs_def]
    apply Real.sin_pos_of_pos_of_lt_pi
    · linarith
    · have hpi := Real.pi_pos; linarith
  have hsc : c ^ 2 + s ^ 2 = 1 := by rw [hs_def, hc_def]; exact Real.cos_sq_add_sin_sq _
  have hperp : u.dot tperp = 0 := by
    rw [hte, htp, Vec3.dot_sub_right, Vec3.dot_smul_right, hu, Vec3.dot_comm u t]
    ring
  have ht1A : t1 = ((Real.tan (θ / 2))⁻¹ * (2 : ℝ)⁻¹) • (tperp.cross u)
      - ((2 : ℝ)⁻¹) • tperp := by
    rw [ht1, Vec3.div_eq_smul, Vec3.div_eq_smul, Vec3.smul_smul, Vec3.div_eq_smul]
  have ht1perp : u.dot t1 = 0 := by
    rw [ht1A, Vec3.dot_sub_right, Vec3.dot_smul_right, Vec3.dot_smul_right,
      Vec3.dot_cross_right, hperp]
    ring
  have hvdotu : v.dot u = t.dot u := by
    rw [hv, Vec3.dot_comm, Vec3.dot_add_right, Vec3.cross_smul_left, Vec3.dot_smul_right,
      Vec3.dot_cross_left, htp, Vec3.dot_smul_right, hu]
    ring
  have hvp_eq : vp = tproj := by rw [hvp, hvdotu, htp]
  have hvperp : vperp = θ • (u.cross t1) := by
    rw [hvq, hv, hvp_eq, Vec3.cross_smul_left]
    apply Vec3.ext <;> simp
  have ht2_eq : t2 = t1 := by
    rw [ht2, hvperp, Vec3.cross_smul_left, Vec3.div_eq_smul, Vec3.smul_smul, Vec3.triple',
      hu, ht1perp]
    apply Vec3.ext <;>
      simp only [Vec3.smul_x, Vec3.smul_y, Vec3.smul_z, Vec3.sub_x, Vec3.sub_y, Vec3.sub_z] <;>
      field_simp
  have hRt : rotv R t1 = ((c ^ 2 - s ^ 2) • t1) + (((2 : ℝ) * c * s) • (u.cross t1)) := by
    rw [hR]; exact rotv_axis c s u t1 hu ht1perp hsc
  have hTinv : (Real.tan (θ / 2))⁻¹ = c / s := by
    rw [Real.tan_eq_sin_div_cos, inv_div, ← hs_def, ← hc_def]
  have hut1 : u.cross t1 = ((Real.tan (θ / 2))⁻¹ * (2 : ℝ)⁻¹) • tperp
      + ((2 : ℝ)⁻¹) • (tperp.cross u) := by
    rw [ht1A, Vec3.cross_sub_right, Vec3.cross_smul_right, Vec3.cross_smul_right,
      Vec3.triple, hu, hperp, Vec3.cross_anticomm u tperp]
    apply Vec3.ext <;> simp <;> ring
  have hcoefA : (c ^ 2 - s ^ 2) * (-(2 : ℝ)⁻¹) + (2 * c * s) * ((c / s) * (2 : ℝ)⁻¹)
      + (2 : ℝ)⁻¹ = 1 := by
    field_simp
    linear_combination (4 * s) * hsc
  have hcoefB : (c ^ 2 - s ^ 2) * ((c / s) * (2 : ℝ)⁻¹) + (2 * c * s) * (2 : ℝ)⁻¹
      - ((c / s) * (2 : ℝ)⁻¹) = 0 := by
    field_simp
    linear_combination (4 * c * s) * hsc
  have ht_split : t = tperp + tproj := by
    rw [hte]; apply Vec3.ext <;> simp
  rw [ht2_eq, hRt, hut1, ht1A, hvp_eq, hTinv, ht_split]
  apply Vec3.ext
  · simp only [Vec3.add_x, Vec3.sub_x, Vec3.smul_x]
    linear_combination tperp.x * hcoefA + (tperp.cross u).x * hcoefB
  · simp only [Vec3.add_y, Vec3.sub_y, Vec3.smul_y]
    linear_combination tperp.y * hcoefA + (tperp.cross u).y * hcoefB
  · simp only [Vec3.add_z, Vec3.sub_z, Vec3.smul_z]
    linear_combination tperp.z * hcoefA + (tperp.cross u).z * hcoefB

theorem se3LogEps_pos : (0 : ℝ) < se3LogEps := by
  rw [se3LogEps]; norm_num

theorem se3ExpEps_eq : se3ExpEps = se3LogEps := rfl

/-- Exact exp-log round trip for the rigid-pose engine: the logarithm of lie.rs
applied to (p, g) followed by the exponential of lie.rs reproduces g exactly —
same coordinate system, same translation, and the same rotation up to the
quaternion double-cover sign. -/
theorem se3_exp_log {F : Type} [DecidableEq F] [Inhabited F]
    (p g : ManifoldElement F SE3 Iso)
    (hcs : p.coordinate_system = g.coordinate_system)
    (hrf : p.coordinate_system.frame.robot_frame = (default : F))
    (hup : normSq p.coordinates.rot = 1) (hug : normSq g.coordinates.rot = 1) :
    ∃ la : LieAlgebraPoint F SE3 se3 Twist Iso,
      SE3.log_of p g = some la ∧ la.tangent_at = p
      ∧ la.coordinate_system
          = CoordinateSystem.at_time F se3 Twist p.coordinate_system.frame.time
      ∧ ∃ r : ManifoldElement F SE3 Iso,
          SE3.from_algebra la = some r
          ∧ r.coordinate_system = g.coordinate_system
          ∧ r.coordinates.trans = g.coordinates.trans
          ∧ (r.coordinates.rot = g.coordinates.rot
              ∨ r.coordinates.rot = -g.coordinates.rot) := by
  set rel : Iso := (p.coordinates.inverse).mul g.coordinates with hrel_def
  have hrelu : normSq rel.rot = 1 := by
    show normSq (star p.coordinates.rot * g.coordinates.rot) = 1
    rw [map_mul, Quaternion.normSq_star, hup, hug, one_mul]
  set A := vangle rel.rot with hA_def
  set W := scaled_axis rel.rot with hW_def
  have hWnorm : W.norm = A := scaled_axis_norm hrelu
  have hgm : SE3.group_mul (SE3.invert p) g = some ⟨p.coordinate_system, rel⟩ := by
    simp only [SE3.group_mul, SE3.invert]
    rw [if_pos hcs]
  have hframe : (CoordinateSystem.at_time F se3 Twist p.coordinate_system.frame.time).frame
      = p.coordinate_system.frame := by
    apply CoordinateFrame.ext
    · rfl
    · exact hrf.symm
  have hnew : ∀ tw : Twist,
      LieAlgebraPoint.new p
        (CoordinateSystem.at_time F se3 Twist p.coordinate_system.frame.time) tw
      = some ⟨p, CoordinateSystem.at_time F se3 Twist p.coordinate_system.frame.time, tw⟩ := by
    intro tw
    rw [LieAlgebraPoint.new, if_pos hframe]
  have hlog : SE3.log_of p g = some ⟨p,
      CoordinateSystem.at_time F se3 Twist p.coordinate_system.frame.time,
      ⟨W, if A < se3LogEps then rel.trans else
        W.cross ((rel.trans - (rel.trans.dot (W / A)) • (W / A)).cross (W / A) / (2 : ℝ) /
            Real.tan (A / 2)
          - (rel.trans - (rel.trans.dot (W / A)) • (W / A)) / (2 : ℝ))
        + (rel.trans.dot (W / A)) • (W / A)⟩⟩ := by
    rw [SE3.log_of, if_pos hcs, hgm]
    exact hnew _
  have hRR : from_scaled_axis W = rel.rot ∨ from_scaled_axis W = -rel.rot :=
    from_scaled_axis_scaled_axis hrelu
  have hpg : p.coordinates.mul rel = g.coordinates := iso_mul_inv_cancel hup g.coordinates
  have hfinal : ∀ tv : Vec3, tv = rel.trans →
      ∃ r : ManifoldElement F SE3 Iso,
        SE3.group_mul p ⟨p.coordinate_system, ⟨from_scaled_axis W, tv⟩⟩ = some r
        ∧ r.coordinate_system = g.coordinate_system
        ∧ r.coordinates.trans = g.coordinates.trans
        ∧ (r.coordinates.rot = g.coordinates.rot
            ∨ r.coordinates.rot = -g.coordinates.rot) := by
    intro tv htv
    refine ⟨⟨p.coordinate_system, p.coordinates.mul ⟨from_scaled_axis W, tv⟩⟩, ?_, hcs, ?_, ?_⟩
    · rw [SE3.group_mul, if_pos rfl]
    · show rotv p.coordinates.rot tv + p.coordinates.trans = g.coordinates.trans
      rw [htv]
      have h1 : rotv p.coordinates.rot rel.trans + p.coordinates.trans
          = (p.coordinates.mul rel).trans := rfl
      rw [h1, hpg]
    · show p.coordinates.rot * from_scaled_axis W = g.coordinates.rot
        ∨ p.coordinates.rot * from_scaled_axis W = -g.coordinates.rot
      rcases hRR with hR1 | hR1
      · left
        rw [hR1]
        have h1 : p.coordinates.rot * rel.rot = (p.coordinates.mul rel).rot := rfl
        rw [h1, hpg]
      · right
        rw [hR1, mul_neg]
        have h1 : p.coordinates.rot * rel.rot = (p.coordinates.mul rel).rot := rfl
        rw [h1, hpg]
  by_cases hbr : A < se3LogEps
  · -- small-angle branch of both log and exp
    refine ⟨_, hlog, rfl, rfl, ?_⟩
    have hcond : W.norm < se3ExpEps := by rw [hWnorm, se3ExpEps_eq]; exact hbr
    have hfrom : SE3.from_algebra
        (⟨p, CoordinateSystem.at_time F se3 Twist p.coordinate_system.frame.time,
          ⟨W, if A < se3LogEps then rel.trans else
            W.cross ((rel.trans - (rel.trans.dot (W / A)) • (W / A)).cross (W / A) / (2 : ℝ) /
                Real.tan (A / 2)
              - (rel.trans - (rel.trans.dot (W / A)) • (W / A)) / (2 : ℝ))
            + (rel.trans.dot (W / A)) • (W / A)⟩⟩ :
          LieAlgebraPoint F SE3 se3 Twist Iso)
        = SE3.group_mul p ⟨p.coordinate_system,
            ⟨from_scaled_axis W, if A < se3LogEps then rel.trans else
              W.cross ((rel.trans - (rel.trans.dot (W / A)) • (W / A)).cross (W / A) / (2 : ℝ) /
                  Real.tan (A / 2)
                - (rel.trans - (rel.trans.dot (W / A)) • (W / A)) / (2 : ℝ))
              + (rel.trans.dot (W / A)) • (W / A)⟩⟩ := by
      rw [SE3.from_algebra]
      rw [if_pos hcond, if_pos hbr]
    rw [hfrom, if_pos hbr]
    exact hfinal rel.trans rfl
  · -- generic branch: the screw formulas invert each other
    have hApos : 0 < A := lt_of_lt_of_le se3LogEps_pos (not_lt.mp hbr)
    have hApi : A ≤ π := vangle_le_pi rel.rot
    have hWnz : W.norm ≠ 0 := by rw [hWnorm]; exact hApos.ne'
    have hWdot : W.dot W = A ^ 2 := by rw [← Vec3.norm_sq, hWnorm]
    have hu : (W / A).dot (W / A) = 1 := by
      rw [Vec3.div_eq_smul, Vec3.dot_smul_right, Vec3.dot_comm, Vec3.dot_smul_right,
        Vec3.dot_comm, hWdot]
      field_simp
      ring
    have hWsmul : A • (W / A) = W := by
      rw [Vec3.div_eq_smul, Vec3.smul_smul]
      apply Vec3.ext <;> simp <;> field_simp
    have hR : from_scaled_axis W = ⟨Real.cos (A / 2), Real.sin (A / 2) * (W / A).x,
        Real.sin (A / 2) * (W / A).y, Real.sin (A / 2) * (W / A).z⟩ := by
      rw [from_scaled_axis, if_neg hWnz, hWnorm]
      apply Quaternion.ext <;> simp only [Vec3.div_x, Vec3.div_y, Vec3.div_z] <;> ring
    have hcond : ¬ W.norm < se3ExpEps := by rw [hWnorm, se3ExpEps_eq]; exact hbr
    refine ⟨_, hlog, rfl, rfl, ?_⟩
    have hv_eq : (if A < se3LogEps then rel.trans else
        W.cross ((rel.trans - (rel.trans.dot (W / A)) • (W / A)).cross (W / A) / (2 : ℝ) /
            Real.tan (A / 2)
          - (rel.trans - (rel.trans.dot (W / A)) • (W / A)) / (2 : ℝ))
        + (rel.trans.dot (W / A)) • (W / A))
        = W.cross ((rel.trans - (rel.trans.dot (W / A)) • (W / A)).cross (W / A) / (2 : ℝ) /
            Real.tan (A / 2)
          - (rel.trans - (rel.trans.dot (W / A)) • (W / A)) / (2 : ℝ))
        + (rel.trans.dot (W / A)) • (W / A) := if_neg hbr
    set vlog : Vec3 :=
      W.cross ((rel.trans - (rel.trans.dot (W / A)) • (W / A)).cross (W / A) / (2 : ℝ) /
          Real.tan (A / 2)
        - (rel.trans - (rel.trans.dot (W / A)) • (W / A)) / (2 : ℝ))
      + (rel.trans.dot (W / A)) • (W / A) with hvlog_def
    have hscrew : (rotv (from_scaled_axis W)
          (((vlog - (vlog.dot (W / W.norm)) • (W / W.norm)).cross (W / W.norm)) / W.norm)
        - ((vlog - (vlog.dot (W / W.norm)) • (W / W.norm)).cross (W / W.norm)) / W.norm)
        + (vlog.dot (W / W.norm)) • (W / W.norm) = rel.trans := by
      rw [hWnorm]
      exact screw_core (W / A) rel.trans A hu hApos hApi (from_scaled_axis W) hR
        ((rel.trans.dot (W / A)) • (W / A))
        (rel.trans - (rel.trans.dot (W / A)) • (W / A))
        ((rel.trans - (rel.trans.dot (W / A)) • (W / A)).cross (W / A) / (2 : ℝ) /
          Real.tan (A / 2) - (rel.trans - (rel.trans.dot (W / A)) • (W / A)) / (2 : ℝ))
        vlog
        ((vlog.dot (W / A)) • (W / A))
        (vlog - (vlog.dot (W / A)) • (W / A))
        (((vlog - (vlog.dot (W / A)) • (W / A)).cross (W / A)) / A)
        rfl rfl rfl (by rw [hWsmul, hvlog_def]) rfl rfl rfl
    have hfrom : SE3.from_algebra
        (⟨p, CoordinateSystem.at_time F se3 Twist p.coordinate_system.frame.time,
          ⟨W, if A < se3LogEps then rel.trans else vlog⟩⟩ :
          LieAlgebraPoint F SE3 se3 Twist Iso)
        = SE3.group_mul p ⟨p.coordinate_system,
            ⟨from_scaled_axis W,
              (rotv (from_scaled_axis W)
                  ((((if A < se3LogEps then rel.trans else vlog)
                      - (((if A < se3LogEps then rel.trans else vlog).dot (W / W.norm)) •
                        (W / W.norm))).cross (W / W.norm)) / W.norm)
                - ((((if A < se3LogEps then rel.trans else vlog)
                      - (((if A < se3LogEps then rel.trans else vlog).dot (W / W.norm)) •
                        (W / W.norm))).cross (W / W.norm)) / W.norm))
              + (((if A < se3LogEps then rel.trans else vlog).dot (W / W.norm)) •
                  (W / W.norm))⟩⟩ := by
      rw [SE3.from_algebra, if_neg hcond]
    rw [hfrom, if_neg hbr]
    exact hfinal _ hscrew

theorem Vec3.div_div_eq (v : Vec3) (a b : ℝ) : v / a / b = v / (a * b) := by
  apply Vec3.ext <;> simp [div_div]

theorem rotv_zero (q : Quaternion ℝ) : rotv q 0 = 0 := by
  apply Vec3.ext <;>
    simp only [rotv, Vec3.cross_x, Vec3.cross_y, Vec3.cross_z, Vec3.add_x, Vec3.add_y,
      Vec3.add_z, Vec3.smul_x, Vec3.smul_y, Vec3.smul_z, Vec3.zero_x, Vec3.zero_y,
      Vec3.zero_z] <;>
    ring

theorem from_scaled_axis_zero : from_scaled_axis 0 = 1 := by
  rw [from_scaled_axis, if_pos Vec3.norm_zero]

theorem rot_residual_self {x : Quaternion ℝ} (h : normSq x = 1) : rot_residual x x = 0 := by
  rw [rot_residual, Quaternion.star_mul_self, h, vangle]
  have h1 : (((1 : ℝ) : Quaternion ℝ)).re = 1 := Quaternion.coe_re 1
  rw [h1, abs_one, Real.arccos_one, mul_zero]

theorem rot_residual_neg {x : Quaternion ℝ} (h : normSq x = 1) :
    rot_residual x (-x) = 0 := by
  rw [rot_residual, mul_neg, Quaternion.star_mul_self, h, vangle]
  have h1 : ((-((1 : ℝ) : Quaternion ℝ))).re = -1 := by
    rw [Quaternion.neg_re, Quaternion.coe_re]
  rw [h1, abs_neg, abs_one, Real.arccos_one, mul_zero]

/-- Exact exp-log round trip for the rotation engine: the SO3 logarithm of
lie.rs followed by the SO3 exponential reproduces g exactly up to the
quaternion double-cover sign. -/
theorem so3_exp_log {F : Type} [DecidableEq F] [Inhabited F]
    (p g : ManifoldElement F SO3 (Quaternion ℝ))
    (hcs : p.coordinate_system = g.coordinate_system)
    (hrf : p.coordinate_system.frame.robot_frame = (default : F))
    (hup : normSq p.coordinates = 1) (hug : normSq g.coordinates = 1) :
    ∃ la : LieAlgebraPoint F SO3 so3 Vec3 (Quaternion ℝ),
      SO3.log_of p g = some la ∧ la.tangent_at = p
      ∧ la.coordinate_system
          = CoordinateSystem.at_time F so3 Vec3 p.coordinate_system.frame.time
      ∧ la.coordinates = scaled_axis (star p.coordinates * g.coordinates)
      ∧ ∃ r : ManifoldElement F SO3 (Quaternion ℝ),
          SO3.from_algebra la = some r
          ∧ r.coordinate_system = g.coordinate_system
          ∧ (r.coordinates = g.coordinates ∨ r.coordinates = -g.coordinates) := by
  set relq : Quaternion ℝ := star p.coordinates * g.coordinates with hrelq_def
  have hrelu : normSq relq = 1 := by
    rw [hrelq_def, map_mul, Quaternion.normSq_star, hup, hug, one_mul]
  have hgm : SO3.group_mul (SO3.invert p) g = some ⟨p.coordinate_system, relq⟩ := by
    simp only [SO3.group_mul, SO3.invert]
    rw [if_pos hcs]
  have hframe : (CoordinateSystem.at_time F so3 Vec3 p.coordinate_system.frame.time).frame
      = p.coordinate_system.frame := by
    apply CoordinateFrame.ext
    · rfl
    · exact hrf.symm
  have hlog : SO3.log_of p g = some ⟨p,
      CoordinateSystem.at_time F so3 Vec3 p.coordinate_system.frame.time,
      scaled_axis relq⟩ := by
    rw [SO3.log_of, if_pos hcs, hgm]
    show LieAlgebraPoint.new p
        (CoordinateSystem.at_time F so3 Vec3 p.coordinate_system.frame.time)
        (scaled_axis relq) = _
    rw [LieAlgebraPoint.new, if_pos hframe]
  refine ⟨_, hlog, rfl, rfl, rfl, ?_⟩
  have hpg : p.coordinates * relq = g.coordinates := by
    rw [hrelq_def, ← mul_assoc, Quaternion.self_mul_star, hup, Quaternion.coe_one, one_mul]
  rcases from_scaled_axis_scaled_axis hrelu with hR1 | hR1
  · refine ⟨⟨p.coordinate_system, p.coordinates * from_scaled_axis (scaled_axis relq)⟩,
      ?_, hcs, ?_⟩
    · rw [SO3.from_algebra, SO3.group_mul, if_pos rfl]
    · left
      show p.coordinates * from_scaled_axis (scaled_axis relq) = g.coordinates
      rw [hR1, hpg]
  · refine ⟨⟨p.coordinate_system, p.coordinates * from_scaled_axis (scaled_axis relq)⟩,
      ?_, hcs, ?_⟩
    · rw [SO3.from_algebra, SO3.group_mul, if_pos rfl]
    · right
      show p.coordinates * from_scaled_axis (scaled_axis relq) = -g.coordinates
      rw [hR1, mul_neg, hpg]

/-- Claim C4: the rigid-pose logarithm computes the relative element self⁻¹·other
and returns the twist {w, v} with w the scaled axis of the relative rotation
and θ = |w|: below the 1e-6 guard v is the relative translation unmodified,
otherwise v = w × t′ + t_proj with t′ = (t_perp × ŵ)/(2·tan(θ/2)) − t_perp/2,
where t_proj and t_perp split the relative translation along and across ŵ. -/
theorem claim_c4 :
    ∀ (F : Type) [DecidableEq F] [Inhabited F] (self other : ManifoldElement F SE3 Iso),
      self.coordinate_system = other.coordinate_system →
      self.coordinate_system.frame.robot_frame = default →
      normSq self.coordinates.rot = 1 → normSq other.coordinates.rot = 1 →
      ∃ la : LieAlgebraPoint F SE3 se3 Twist Iso,
        SE3.log_of self other = some la ∧ la.tangent_at = self
        ∧ la.coordinates.w
            = scaled_axis ((self.coordinates.inverse).mul other.coordinates).rot
        ∧ (la.coordinates.w.norm < (1e-6 : ℝ) →
            la.coordinates.v = ((self.coordinates.inverse).mul other.coordinates).trans)
        ∧ (¬ la.coordinates.w.norm < (1e-6 : ℝ) →
            la.coordinates.v
              = la.coordinates.w.cross
                  ((((self.coordinates.inverse).mul other.coordinates).trans
                      - ((((self.coordinates.inverse).mul other.coordinates).trans.dot
                          (la.coordinates.w / la.coordinates.w.norm)) •
                        (la.coordinates.w / la.coordinates.w.norm))).cross
                      (la.coordinates.w / la.coordinates.w.norm)
                    / ((2 : ℝ) * Real.tan (la.coordinates.w.norm / 2))
                  - (((self.coordinates.inverse).mul other.coordinates).trans
                      - ((((self.coordinates.inverse).mul other.coordinates).trans.dot
                          (la.coordinates.w / la.coordinates.w.norm)) •
                        (la.coordinates.w / la.coordinates.w.norm))) / (2 : ℝ))
                + (((self.coordinates.inverse).mul other.coordinates).trans.dot
                    (la.coordinates.w / la.coordinates.w.norm)) •
                  (la.coordinates.w / la.coordinates.w.norm)) := by
  intro F _ _ self other hcs hrf hu1 hu2
  set rel : Iso := (self.coordinates.inverse).mul other.coordinates with hrel_def
  have hrelu : normSq rel.rot = 1 := by
    show normSq (star self.coordinates.rot * other.coordinates.rot) = 1
    rw [map_mul, Quaternion.normSq_star, hu1, hu2, one_mul]
  set A := vangle rel.rot with hA_def
  set W := scaled_axis rel.rot with hW_def
  have hWnorm : W.norm = A := scaled_axis_norm hrelu
  have hgm : SE3.group_mul (SE3.invert self) other = some ⟨self.coordinate_system, rel⟩ := by
    simp only [SE3.group_mul, SE3.invert]
    rw [if_pos hcs]
  have hframe :
      (CoordinateSystem.at_time F se3 Twist self.coordinate_system.frame.time).frame
      = self.coordinate_system.frame := by
    apply CoordinateFrame.ext
    · rfl
    · exact hrf.symm
  have hlog : SE3.log_of self other = some ⟨self,
      CoordinateSystem.at_time F se3 Twist self.coordinate_system.frame.time,
      ⟨W, if A < se3LogEps then rel.trans else
        W.cross ((rel.trans - (rel.trans.dot (W / A)) • (W / A)).cross (W / A) / (2 : ℝ) /
            Real.tan (A / 2)
          - (rel.trans - (rel.trans.dot (W / A)) • (W / A)) / (2 : ℝ))
        + (rel.trans.dot (W / A)) • (W / A)⟩⟩ := by
    rw [SE3.log_of, if_pos hcs, hgm]
    show LieAlgebraPoint.new self
        (CoordinateSystem.at_time F se3 Twist self.coordinate_system.frame.time) _ = _
    rw [LieAlgebraPoint.new, if_pos hframe]
  refine ⟨_, hlog, rfl, rfl, ?_, ?_⟩
  · intro h
    have hbr : A < se3LogEps := by rw [← hWnorm]; exact h
    exact if_pos hbr
  · intro h
    have hbr : ¬ A < se3LogEps := by rw [← hWnorm]; exact h
    show (if A < se3LogEps then rel.trans else
        W.cross ((rel.trans - (rel.trans.dot (W / A)) • (W / A)).cross (W / A) / (2 : ℝ) /
            Real.tan (A / 2)
          - (rel.trans - (rel.trans.dot (W / A)) • (W / A)) / (2 : ℝ))
        + (rel.trans.dot (W / A)) • (W / A))
      = W.cross ((rel.trans - ((rel.trans.dot (W / W.norm)) • (W / W.norm))).cross
            (W / W.norm) / ((2 : ℝ) * Real.tan (W.norm / 2))
          - (rel.trans - ((rel.trans.dot (W / W.norm)) • (W / W.norm))) / (2 : ℝ))
        + ((rel.trans.dot (W / W.norm)) • (W / W.norm))
    rw [if_neg hbr, hWnorm, Vec3.div_div_eq]

/-- Witness for C4: the logarithm at a concrete pure-translation pair takes
the small-angle branch and returns the relative translation unchanged. -/
theorem claim_c4_witness :
    ∃ la : LieAlgebraPoint Unit SE3 se3 Twist Iso,
      SE3.log_of wpSE3 wgSE3 = some la ∧ la.tangent_at = wpSE3
      ∧ la.coordinates.w
          = scaled_axis ((wpSE3.coordinates.inverse).mul wgSE3.coordinates).rot := by
  obtain ⟨la, h1, h2, h3, h4, h5⟩ :=
    claim_c4 Unit wpSE3 wgSE3 rfl rfl (map_one normSq) (map_one normSq)
  exact ⟨la, h1, h2, h3⟩

/-- Claim C5: the angular threshold of the rigid-pose logarithm equals the one of
the rigid-pose exponential (both the literal 1e-6), and for every unit-rotation
rigid-pose element g anchored at p in the same coordinate system — including
the small-angle branch — re-exponentiating log_of(p, g) reproduces g with
angular and translational residual 0, in particular within 1e-4. -/
theorem claim_c5 :
    se3LogEps = se3ExpEps
    ∧ ∀ (F : Type) [DecidableEq F] [Inhabited F] (p g : ManifoldElement F SE3 Iso),
        p.coordinate_system = g.coordinate_system →
        p.coordinate_system.frame.robot_frame = default →
        normSq p.coordinates.rot = 1 → normSq g.coordinates.rot = 1 →
        ∃ la r, SE3.log_of p g = some la ∧ SE3.from_algebra la = some r
          ∧ r.coordinate_system = g.coordinate_system
          ∧ rot_residual g.coordinates.rot r.coordinates.rot ≤ (1e-4 : ℝ)
          ∧ (r.coordinates.trans - g.coordinates.trans).norm ≤ (1e-4 : ℝ) := by
  refine ⟨rfl, ?_⟩
  intro F _ _ p g hcs hrf hup hug
  obtain ⟨la, hlog, hta, hlacs, r, hfrom, hrcs, htrans, hrot⟩ :=
    se3_exp_log p g hcs hrf hup hug
  refine ⟨la, r, hlog, hfrom, hrcs, ?_, ?_⟩
  · rcases hrot with h | h
    · rw [h, rot_residual_self hug]; norm_num
    · rw [h, rot_residual_neg hug]; norm_num
  · have hz : r.coordinates.trans - g.coordinates.trans = 0 := by
      rw [htrans]
      apply Vec3.ext <;> simp
    rw [hz, Vec3.norm_zero]
    norm_num

/-- Witness for C5: the round trip at a concrete pure-translation pair. -/
theorem claim_c5_witness :
    se3LogEps = se3ExpEps
    ∧ ∃ la r, SE3.log_of wpSE3 wgSE3 = some la ∧ SE3.from_algebra la = some r
        ∧ r.coordinate_system = wgSE3.coordinate_system
        ∧ rot_residual wgSE3.coordinates.rot r.coordinates.rot ≤ (1e-4 : ℝ)
        ∧ (r.coordinates.trans - wgSE3.coordinates.trans).norm ≤ (1e-4 : ℝ) :=
  ⟨claim_c5.1,
    claim_c5.2 Unit wpSE3 wgSE3 rfl rfl (map_one normSq) (map_one normSq)⟩

/-- Claim C6: for Lie-group elements sharing a coordinate system (rotation or
rigid-pose, unit rotations), lerp_to — defined as exponentiating the
alpha-scaled logarithm onto the base point — returns exactly p at alpha = 0
and exactly q (up to the quaternion double-cover sign, residual 0 ≤ 1e-4) at
alpha = 1. -/
theorem claim_c6 :
    ∀ (F : Type) [DecidableEq F] [Inhabited F],
      (∀ p q : ManifoldElement F SO3 (Quaternion ℝ),
        p.coordinate_system = q.coordinate_system →
        p.coordinate_system.frame.robot_frame = default →
        normSq p.coordinates = 1 → normSq q.coordinates = 1 →
          SO3.lerp_to p q 0 = some p
          ∧ ∃ r, SO3.lerp_to p q 1 = some r
              ∧ r.coordinate_system = q.coordinate_system
              ∧ rot_residual q.coordinates r.coordinates ≤ (1e-4 : ℝ)
              ∧ (r.coordinates = q.coordinates ∨ r.coordinates = -q.coordinates))
      ∧ (∀ p q : ManifoldElement F SE3 Iso,
        p.coordinate_system = q.coordinate_system →
        p.coordinate_system.frame.robot_frame = default →
        normSq p.coordinates.rot = 1 → normSq q.coordinates.rot = 1 →
          SE3.lerp_to p q 0 = some p
          ∧ ∃ r, SE3.lerp_to p q 1 = some r
              ∧ r.coordinate_system = q.coordinate_system
              ∧ rot_residual q.coordinates.rot r.coordinates.rot ≤ (1e-4 : ℝ)
              ∧ (r.coordinates.trans - q.coordinates.trans).norm ≤ (1e-4 : ℝ)) := by
  intro F _ _
  constructor
  · intro p q hcs hrf hup huq
    obtain ⟨la, hlog, hta, hlacs, hco, r, hfrom, hrcs, hpm⟩ :=
      so3_exp_log p q hcs hrf hup huq
    have hframe : (CoordinateSystem.at_time F so3 Vec3 p.coordinate_system.frame.time).frame
        = p.coordinate_system.frame := by
      apply CoordinateFrame.ext
      · rfl
      · exact hrf.symm
    have hcond : la.coordinate_system.frame = la.tangent_at.coordinate_system.frame := by
      rw [hta, hlacs]; exact hframe
    constructor
    · have hscale : so3.scale_by la 0
          = some ⟨la.tangent_at, la.coordinate_system, (0 : ℝ) • la.coordinates⟩ := by
        rw [so3.scale_by, LieAlgebraPoint.new, if_pos hcond]
      have hfa : SO3.from_algebra
          (⟨la.tangent_at, la.coordinate_system, (0 : ℝ) • la.coordinates⟩ :
            LieAlgebraPoint F SO3 so3 Vec3 (Quaternion ℝ))
          = some ⟨p.coordinate_system, p.coordinates * 1⟩ := by
        simp only [SO3.from_algebra]
        rw [hta, Vec3.zero_smul, from_scaled_axis_zero, SO3.group_mul, if_pos rfl]
      rw [SO3.lerp_to, hlog]
      show (so3.scale_by la 0).bind (fun t2 => SO3.from_algebra t2) = some p
      rw [hscale]
      show SO3.from_algebra
        (⟨la.tangent_at, la.coordinate_system, (0 : ℝ) • la.coordinates⟩ :
          LieAlgebraPoint F SO3 so3 Vec3 (Quaternion ℝ)) = some p
      rw [hfa, mul_one]
    · have hscale : so3.scale_by la 1 = some la := by
        rw [so3.scale_by, LieAlgebraPoint.new, if_pos hcond, Vec3.one_smul]
      refine ⟨r, ?_, hrcs, ?_, hpm⟩
      · rw [SO3.lerp_to, hlog]
        show (so3.scale_by la 1).bind (fun t2 => SO3.from_algebra t2) = some r
        rw [hscale]
        exact hfrom
      · rcases hpm with h | h
        · rw [h, rot_residual_self huq]; norm_num
        · rw [h, rot_residual_neg huq]; norm_num
  · intro p q hcs hrf hup huq
    obtain ⟨la, hlog, hta, hlacs, r, hfrom, hrcs, htr, hpm⟩ :=
      se3_exp_log p q hcs hrf hup huq
    have hframe : (CoordinateSystem.at_time F se3 Twist p.coordinate_system.frame.time).frame
        = p.coordinate_system.frame := by
      apply CoordinateFrame.ext
      · rfl
      · exact hrf.symm
    have hcond : la.coordinate_system.frame = la.tangent_at.coordinate_system.frame := by
      rw [hta, hlacs]; exact hframe
    constructor
    · have hscale : se3.scale_by la 0
          = some ⟨la.tangent_at, la.coordinate_system,
              ⟨(0 : ℝ) • la.coordinates.w, (0 : ℝ) • la.coordinates.v⟩⟩ := by
        rw [se3.scale_by, LieAlgebraPoint.new, if_pos hcond]
      have hlt : (0 : ℝ) < se3ExpEps := by rw [se3ExpEps_eq]; exact se3LogEps_pos
      have hfa : SE3.from_algebra
          (⟨la.tangent_at, la.coordinate_system,
            ⟨(0 : ℝ) • la.coordinates.w, (0 : ℝ) • la.coordinates.v⟩⟩ :
            LieAlgebraPoint F SE3 se3 Twist Iso)
          = some ⟨p.coordinate_system, p.coordinates.mul ⟨1, (0 : Vec3)⟩⟩ := by
        simp only [SE3.from_algebra]
        rw [hta, Vec3.zero_smul, Vec3.zero_smul, from_scaled_axis_zero, Vec3.norm_zero,
          if_pos hlt, SE3.group_mul, if_pos rfl]
      have hmul1 : p.coordinates.mul ⟨1, (0 : Vec3)⟩ = p.coordinates := by
        apply Iso.ext
        · show p.coordinates.rot * 1 = p.coordinates.rot
          exact mul_one _
        · show rotv p.coordinates.rot 0 + p.coordinates.trans = p.coordinates.trans
          rw [rotv_zero]
          apply Vec3.ext <;> simp
      rw [SE3.lerp_to, hlog]
      show (se3.scale_by la 0).bind (fun t2 => SE3.from_algebra t2) = some p
      rw [hscale]
      show SE3.from_algebra
        (⟨la.tangent_at, la.coordinate_system,
          ⟨(0 : ℝ) • la.coordinates.w, (0 : ℝ) • la.coordinates.v⟩⟩ :
          LieAlgebraPoint F SE3 se3 Twist Iso) = some p
      rw [hfa, hmul1]
    · have hscale : se3.scale_by la 1 = some la := by
        rw [se3.scale_by, LieAlgebraPoint.new, if_pos hcond, Vec3.one_smul, Vec3.one_smul]
      refine ⟨r, ?_, hrcs, ?_, ?_⟩
      · rw [SE3.lerp_to, hlog]
        show (se3.scale_by la 1).bind (fun t2 => SE3.from_algebra t2) = some r
        rw [hscale]
        exact hfrom
      · rcases hpm with h | h
        · rw [h, rot_residual_self huq]; norm_num
        · rw [h, rot_residual_neg huq]; norm_num
      · have hz : r.coordinates.trans - q.coordinates.trans = 0 := by
          rw [htr]
          apply Vec3.ext <;> simp
        rw [hz, Vec3.norm_zero]
        norm_num

/-- Witness for C6: concrete rotation elements (identity and the unit
quaternion i) hit both lerp boundaries. -/
theorem claim_c6_witness :
    SO3.lerp_to wpSO3 wgSO3 0 = some wpSO3
    ∧ ∃ r, SO3.lerp_to wpSO3 wgSO3 1 = some r
        ∧ r.coordinate_system = wgSO3.coordinate_system
        ∧ rot_residual wgSO3.coordinates r.coordinates ≤ (1e-4 : ℝ)
        ∧ (r.coordinates = wgSO3.coordinates ∨ r.coordinates = -wgSO3.coordinates) :=
  (claim_c6 Unit).1 wpSO3 wgSO3 rfl rfl (map_one normSq)
    (by rw [Quaternion.normSq_def']; show (0 : ℝ) ^ 2 + 1 ^ 2 + 0 ^ 2 + 0 ^ 2 = 1; norm_num)

end ST
